import Mathlib

/-!
# VP64 emulator

A shallow embedding of `main.go`, the cycle-stepped emulator of the VP64
stack processor, and theorems about its fetch/decode/execute machine.

Conventions of the embedding:

* a `uint64` is a `Nat`; every operation that can leave the 64-bit range is
  followed by `% 2 ^ 64`;
* the Go `int` fields (`sp`, `rp`, `state`) are `Int`;
* a Go array is a function from indices, and every indexing goes through
  `readAt`, `writeAt` (signed index) or `wordAt`, `setWordAt` (unsigned
  index), which return `none` where Go panics with an index out of range;
* a method with a pointer receiver returns the new machine (and its result,
  when it has one) inside `Option`;
* `log.Printf` writes to the log stream only and touches no field of the
  machine, so it has no counterpart here.
-/

/-! ## Constants -/

def MEMWORDS : Nat := 1048576

def PSDEPTH : Nat := 16
def PSMASK : Nat := PSDEPTH - 1

def RSDEPTH : Nat := 16
def RSMASK : Nat := RSDEPTH - 1

def operandMask : Nat := 0x003FFFFFFFFFFFFF

/-! Opcode numbers, in the order of the `iota` block. -/

def NOP : Nat := 0
def BRA : Nat := 1
def BZ : Nat := 2
def BC : Nat := 3
def CALL : Nat := 4
def RFS : Nat := 5
def NEXT : Nat := 6
def TIMES : Nat := 7
def LDRP : Nat := 8
def LDXP : Nat := 9
def LDI : Nat := 10
def LDX : Nat := 11
def OR : Nat := 12
def STXP : Nat := 13
def RR8 : Nat := 14
def STX : Nat := 15
def COM : Nat := 16
def SHL : Nat := 17
def SHR : Nat := 18
def MULS : Nat := 19
def XOR : Nat := 20
def AND : Nat := 21
def DIVS : Nat := 22
def ADD : Nat := 23
def POP : Nat := 24
def TX : Nat := 25
def DUP : Nat := 26
def OVER : Nat := 27
def PUSH : Nat := 28
def XT : Nat := 29
/-- The enumerator `__reserved_for_prefixed_opcodes__`, which no `case` names. -/
def reserved_for_prefixed_opcodes : Nat := 30
def DROP : Nat := 31

/-- The table `shifts`: entry 0 is the dummy, entry n the bit offset of slot n. -/
def shifts : List Nat := [0, 58, 52, 46, 40, 34, 28, 22, 16, 10, 4]

/-! ## Machine integers and arrays -/

/-- The number of `uint64` values. -/
def W64 : Nat := 2 ^ 64

/-- Go `i & m` on a signed `int` with a mask `m = 2^k - 1`: in two's complement
this is the residue of `i` modulo `m + 1`, a value in `0..m`. -/
def maskInt (i : Int) (m : Nat) : Int := i % ((m : Int) + 1)

/-- Read `a[i]` of an array of length `n` at a signed index. -/
def readAt (n : Nat) (a : Nat → Nat) (i : Int) : Option Nat :=
  if 0 ≤ i ∧ i < (n : Int) then some (a i.toNat) else none

/-- Assign `a[i] = d` in an array of length `n` at a signed index. -/
def writeAt (n : Nat) (a : Nat → Nat) (i : Int) (d : Nat) : Option (Nat → Nat) :=
  if 0 ≤ i ∧ i < (n : Int) then some (Function.update a i.toNat d) else none

/-- Read `a[i]` of an array of length `n` at an unsigned index. -/
def wordAt (n : Nat) (a : Nat → Nat) (i : Nat) : Option Nat :=
  if i < n then some (a i) else none

/-- Assign `a[i] = d` in an array of length `n` at an unsigned index. -/
def setWordAt (n : Nat) (a : Nat → Nat) (i : Nat) (d : Nat) : Option (Nat → Nat) :=
  if i < n then some (Function.update a i d) else none

/-- Read `shifts[i]` at a signed index. -/
def shiftAt (i : Int) : Option Nat :=
  if 0 ≤ i then shifts.get? i.toNat else none

/-- The expression `(ir >> shifts[state]) & 63` of `Execute`: the opcode of the
word `ir` at slot cursor `state`. -/
def slotOf (ir : Nat) (state : Int) : Option Nat :=
  (shiftAt state).bind fun sh => some ((ir >>> sh) &&& 63)

/-! ## The machine -/

structure VP64 where
  exitRequested : Bool
  memory : Nat → Nat
  x : Nat
  t : Nat
  s : Nat → Nat
  r : Nat
  rs : Nat → Nat
  sp : Int
  rp : Int
  pc : Nat
  ip : Nat
  ir : Nat
  state : Int

namespace VP64

def Reset (v : VP64) : VP64 :=
  { v with pc := 0, state := 0, ir := 0, sp := maskInt v.sp 0xF, rp := maskInt v.rp 0xF }

def NextWord (v : VP64) : Option (Nat × VP64) :=
  let v1 := if v.pc ≥ MEMWORDS then { v with pc := v.pc % MEMWORDS } else v
  (wordAt MEMWORDS v1.memory v1.pc).bind fun x =>
    some (x, { v1 with pc := (v1.pc + 1) % W64 })

def getWord (v : VP64) (a : Nat) : Option (Nat × VP64) :=
  let a1 := if a ≥ MEMWORDS then a % MEMWORDS else a
  (wordAt MEMWORDS v.memory a1).bind fun x => some (x, v)

def putWord (v : VP64) (a d : Nat) : Option VP64 :=
  let a1 := if a ≥ MEMWORDS then a % MEMWORDS else a
  (setWordAt MEMWORDS v.memory a1 d).bind fun m => some { v with memory := m }

def Fetch (v : VP64) : Option VP64 :=
  let v1 := { v with ip := v.pc }
  v1.NextWord.bind fun p => some { p.2 with ir := p.1, state := 1 }

def operand (v : VP64) : Nat :=
  let x := (v.ir >>> 4) &&& operandMask
  if x &&& 0x0020000000000000 ≠ 0 then x ||| 0xFFC0000000000000 else x

def branch (v : VP64) (displacement : Nat) : Option VP64 :=
  Fetch { v with pc := (v.pc + displacement) % W64 }

def pushR (v : VP64) (datum : Nat) : Option VP64 :=
  (writeAt RSDEPTH v.rs v.rp v.r).bind fun a =>
    some { v with rs := a, rp := maskInt (v.rp + 1) RSMASK, r := datum }

def popR (v : VP64) : Option (Nat × VP64) :=
  let x := v.r
  let v1 := { v with rp := maskInt (v.rp - 1) RSMASK }
  (readAt RSDEPTH v1.rs v1.rp).bind fun y => some (x, { v1 with r := y })

def pushS (v : VP64) (datum : Nat) : Option VP64 :=
  (writeAt PSDEPTH v.s v.sp datum).bind fun a =>
    some { v with s := a, sp := maskInt (v.sp + 1) PSMASK }

def popS (v : VP64) : Option (Nat × VP64) :=
  let v1 := { v with sp := maskInt (v.sp - 1) PSMASK }
  (readAt PSDEPTH v1.s v1.sp).bind fun y => some (y, v1)

/-- The test at the head of `Execute`: the slot cursor is outside 1..10, so
this call begins with a `Fetch`. -/
def fetchDue (v : VP64) : Prop := v.state < 1 ∨ v.state > 10

instance (v : VP64) : Decidable v.fetchDue := by
  unfold fetchDue; infer_instance

/-- The first statement of `Execute`: fetch when the slot cursor is outside 1..10. -/
def prefetch (v : VP64) : Option VP64 :=
  if v.fetchDue then v.Fetch else some v

/-- The opcode `(v.ir >> shifts[v.state]) & 63` read at the slot cursor. -/
def slotOpcode (v : VP64) : Option Nat :=
  slotOf v.ir v.state

/-- The opcode a call of `Execute` hands to its `switch`: the one read at the
slot cursor once the fetch, when one is due, is done. -/
def dispatched (v : VP64) : Option Nat :=
  v.prefetch.bind slotOpcode

/-- The `switch opcode` of `Execute`, run after the slot cursor has advanced. -/
def dispatch (v : VP64) (opcode : Nat) : Option VP64 :=
  if opcode = NOP then some v
  else if opcode = BRA then v.branch v.operand
  else if opcode = BZ then
    if v.t = 0 then v.branch v.operand else some v
  else if opcode = BC then
    if v.t &&& 0x8000000000000000 ≠ 0 then v.branch v.operand else some v
  else if opcode = CALL then
    (v.pushR v.pc).bind fun v1 => v1.branch v1.operand
  else if opcode = RFS then
    v.popR.bind fun p => Fetch { p.2 with pc := p.1 }
  else if opcode = NEXT then
    if v.r ≠ 0 then
      let v1 := { v with r := v.r - 1 }
      v1.branch v1.operand
    else some v
  else if opcode = TIMES then
    if v.r ≠ 0 then
      Fetch { v with r := v.r - 1, pc := v.ip }
    else some v
  else if opcode = LDRP then
    (v.pushS v.t).bind fun v1 => (v1.getWord v1.r).bind fun p =>
      some { p.2 with t := p.1, r := (p.2.r + 1) % W64 }
  else if opcode = LDXP then
    (v.pushS v.t).bind fun v1 => (v1.getWord v1.x).bind fun p =>
      some { p.2 with t := p.1, x := (p.2.x + 1) % W64 }
  else if opcode = LDI then
    (v.pushS v.t).bind fun v1 => v1.NextWord.bind fun p =>
      some { p.2 with t := p.1 }
  else if opcode = LDX then
    (v.pushS v.t).bind fun v1 => (v1.getWord v1.x).bind fun p =>
      some { p.2 with t := p.1 }
  else if opcode = OR then
    v.popS.bind fun p => some { p.2 with t := v.t ||| p.1 }
  else if opcode = STXP then
    (v.putWord v.x v.t).bind fun v1 => v1.popS.bind fun p =>
      some { p.2 with t := p.1, x := (p.2.x + 1) % W64 }
  else if opcode = RR8 then
    some { v with t := (v.t >>> 8) ||| ((v.t <<< 56) % W64) }
  else if opcode = STX then
    (v.putWord v.x v.t).bind fun v1 => v1.popS.bind fun p =>
      some { p.2 with t := p.1 }
  else if opcode = COM then
    some { v with t := v.t ^^^ (W64 - 1) }
  else if opcode = SHL then
    some { v with t := (v.t <<< 1) % W64 }
  else if opcode = SHR then
    some { v with t := v.t >>> 1 }
  else if opcode = MULS then
    some { v with t := 0xDEADFEEDC0DE0BAD }
  else if opcode = XOR then
    v.popS.bind fun p => some { p.2 with t := v.t ^^^ p.1 }
  else if opcode = AND then
    v.popS.bind fun p => some { p.2 with t := v.t &&& p.1 }
  else if opcode = DIVS then
    some { v with t := 0xFEEDDEADC0DE0BAD }
  else if opcode = ADD then
    v.popS.bind fun p => some { p.2 with t := (v.t + p.1) % W64 }
  else if opcode = POP then
    (v.pushS v.t).bind fun v1 => v1.popR.bind fun p => some { p.2 with t := p.1 }
  else if opcode = TX then
    (v.pushS v.t).bind fun v1 => some { v1 with t := v1.x }
  else if opcode = DUP then
    v.pushS v.t
  else if opcode = OVER then
    (readAt PSDEPTH v.s v.sp).bind fun x =>
      (v.pushS v.t).bind fun v1 => some { v1 with t := x }
  else if opcode = PUSH then
    (v.pushR v.t).bind fun v1 => v1.popS.bind fun p => some { p.2 with t := p.1 }
  else if opcode = XT then
    let v1 := { v with x := v.t }
    v1.popS.bind fun p => some { p.2 with t := p.1 }
  else if opcode = DROP then
    v.popS.bind fun p => some { p.2 with t := p.1 }
  else some v

def Execute (v : VP64) : Option VP64 :=
  v.prefetch.bind fun v1 =>
    v1.slotOpcode.bind fun opcode =>
      dispatch { v1 with state := v1.state + 1 } opcode

def LoadROMs (v : VP64) : Option VP64 :=
  (setWordAt MEMWORDS v.memory 00 0x10000000000000F0).bind fun m0 =>
  (setWordAt MEMWORDS m0 01 0x07FFFFFFFFFFFFE0).bind fun m1 =>
  (setWordAt MEMWORDS m1 16 0x10000000000000F0).bind fun m2 =>
  (setWordAt MEMWORDS m2 17 0xF801400000000000).bind fun m3 =>
  (setWordAt MEMWORDS m3 32 0xFC029C1400000000).bind fun m4 =>
  (setWordAt MEMWORDS m4 33 0x0000000000000000).bind fun m5 =>
    some { v with memory := m5 }

/-- The machine after `n` calls of `Execute`, as the loop of `main` makes them. -/
def run : Nat → VP64 → Option VP64
  | 0, v => some v
  | n + 1, v => v.Execute.bind (run n)

/-- The zero value `&VP64{}` that `main` starts from. -/
def zero : VP64 :=
  { exitRequested := false, memory := fun _ => 0, x := 0, t := 0, s := fun _ => 0,
    r := 0, rs := fun _ => 0, sp := 0, rp := 0, pc := 0, ip := 0, ir := 0, state := 0 }

/-- A parameter push of `x`, the way `LDI`, `TX` and `POP` push: `pushS(T)` and
then `T = x`. -/
def paramPush (v : VP64) (x : Nat) : Option VP64 :=
  (v.pushS v.t).bind fun v1 => some { v1 with t := x }

/-- A parameter pop, the way `DROP` pops: the value popped is the old `T`, and
`T = popS()`. -/
def paramPop (v : VP64) : Option (Nat × VP64) :=
  v.popS.bind fun p => some (v.t, { p.2 with t := p.1 })

/-- Push the values of a list, first to last. -/
def pushAll : List Nat → VP64 → Option VP64
  | [], v => some v
  | x :: xs, v => (v.paramPush x).bind (pushAll xs)

/-- Pop `n` times; the values popped are listed first to last. -/
def popN : Nat → VP64 → Option (List Nat × VP64)
  | 0, v => some ([], v)
  | n + 1, v => v.paramPop.bind fun p => (popN n p.2).bind fun q => some (p.1 :: q.1, q.2)

/-- The `i`-th value of the parameter stack counted from the top: `T` for
`i = 0`, then the buffer entries below the stack pointer, wrapping at 16. -/
def peek (v : VP64) (i : Nat) : Nat :=
  if i = 0 then v.t else v.s ((v.sp - (i : Int)) % 16).toNat

/-- Both stack pointers index their buffers: `0 ≤ sp < PSDEPTH` and
`0 ≤ rp < RSDEPTH`. -/
def pointersInRange (v : VP64) : Prop :=
  0 ≤ v.sp ∧ v.sp < 16 ∧ 0 ≤ v.rp ∧ v.rp < 16

/-- The opcodes `Execute` dispatches in `n` successive calls, first to last. -/
def dispatchTrace : Nat → VP64 → Option (List Nat)
  | 0, _ => some []
  | n + 1, v => v.dispatched.bind fun op =>
      v.Execute.bind fun u => (dispatchTrace n u).bind fun ops => some (op :: ops)

end VP64

/-- How a word at address `a` is entered: by a fetch that is due with `pc = a`,
or at slot 1 just after such a fetch. -/
def VP64.entersAt (v : VP64) (a : Nat) : Prop :=
  (v.fetchDue ∧ v.pc = a) ∨ (v.state = 1 ∧ v.ip = a ∧ v.pc = a + 1 ∧ v.ir = v.memory a)

/-- The opcodes dispatched by `k` passes over a word that begins `SHL`, `TIMES`. -/
def shlTimesOps : Nat → List Nat
  | 0 => []
  | k + 1 => SHL :: TIMES :: shlTimesOps k

/-- The opcode values named by a `case` of the `switch` in `Execute`. -/
def assignedOpcodes : List Nat :=
  [NOP, BRA, BZ, BC, CALL, RFS, NEXT, TIMES, LDRP, LDXP, LDI, LDX, OR, STXP, RR8, STX, COM,
   SHL, SHR, MULS, XOR, AND, DIVS, ADD, POP, TX, DUP, OVER, PUSH, XT, DROP]

/-! ## Bit-level facts -/

theorem and_63_eq_mod (x : Nat) : x &&& 63 = x % 64 :=
  Nat.and_pow_two_sub_one_eq_mod x 6

theorem and_operandMask_eq_mod (y : Nat) : y &&& operandMask = y % 2 ^ 54 :=
  Nat.and_pow_two_sub_one_eq_mod y 54

theorem or_sign_fill (y : Nat) (hy : y < 2 ^ 54) :
    y ||| 0xFFC0000000000000 = y + 2 ^ 64 - 2 ^ 54 := by
  have h := Nat.mul_add_lt_is_or hy 1023
  rw [Nat.or_comm, show (0xFFC0000000000000 : Nat) = 2 ^ 54 * 1023 from by norm_num, ← h]
  omega

theorem testBit_53_of_lt (f : Nat) (hlt : f < 2 ^ 54) :
    f.testBit 53 = decide (2 ^ 53 ≤ f) := by
  rw [Nat.testBit_to_div_mod]
  congr 1
  apply propext
  omega

/-- The value of `operand()` in arithmetic form: the 54-bit field at bits 4..57,
read as a two's-complement number and reduced to 64 bits. -/
theorem VP64.operand_eq (v : VP64) :
    v.operand = if (v.ir >>> 4) % 2 ^ 54 < 2 ^ 53 then (v.ir >>> 4) % 2 ^ 54
      else (v.ir >>> 4) % 2 ^ 54 + 2 ^ 64 - 2 ^ 54 := by
  have hbit : ∀ y : Nat, y &&& 0x0020000000000000 = (y.testBit 53).toNat * 2 ^ 53 :=
    fun y => Nat.and_two_pow y 53
  unfold VP64.operand
  simp only [and_operandMask_eq_mod, hbit]
  set f := (v.ir >>> 4) % 2 ^ 54 with hf
  have hlt : f < 2 ^ 54 := Nat.mod_lt _ (by norm_num)
  rw [testBit_53_of_lt f hlt]
  by_cases h : f < 2 ^ 53
  · have h' : ¬ (2 ^ 53 ≤ f) := by omega
    simp only [h', decide_False, Bool.toNat_false, zero_mul, ne_eq, not_true_eq_false,
      if_false, if_pos h]
  · have h' : 2 ^ 53 ≤ f := by omega
    simp only [h', decide_True, Bool.toNat_true, one_mul, if_neg h]
    rw [if_pos (by norm_num), or_sign_fill f hlt]

/-! ## Memory access -/

theorem VP64.NextWord_eq (v : VP64) :
    v.NextWord = some (v.memory (v.pc % MEMWORDS), { v with pc := v.pc % MEMWORDS + 1 }) := by
  have hlt : v.pc % MEMWORDS < MEMWORDS := Nat.mod_lt _ (by decide)
  have hw : (v.pc % MEMWORDS + 1) % W64 = v.pc % MEMWORDS + 1 := by
    apply Nat.mod_eq_of_lt
    simp only [MEMWORDS, W64] at *
    omega
  by_cases h : v.pc ≥ MEMWORDS
  · simp [VP64.NextWord, wordAt, h, hlt, hw]
  · have h' : v.pc % MEMWORDS = v.pc := Nat.mod_eq_of_lt (by omega)
    have h'' : v.pc < MEMWORDS := by omega
    rw [h'] at hw
    simp [VP64.NextWord, wordAt, h, h', h'', hw]

theorem VP64.getWord_eq (v : VP64) (a : Nat) :
    v.getWord a = some (v.memory (a % MEMWORDS), v) := by
  have hlt : a % MEMWORDS < MEMWORDS := Nat.mod_lt _ (by decide)
  by_cases h : a ≥ MEMWORDS
  · simp [VP64.getWord, wordAt, h, hlt]
  · have h' : a % MEMWORDS = a := Nat.mod_eq_of_lt (by omega)
    have h'' : a < MEMWORDS := by omega
    simp [VP64.getWord, wordAt, h, h', h'']

theorem VP64.putWord_eq (v : VP64) (a d : Nat) :
    v.putWord a d = some { v with memory := Function.update v.memory (a % MEMWORDS) d } := by
  have hlt : a % MEMWORDS < MEMWORDS := Nat.mod_lt _ (by decide)
  by_cases h : a ≥ MEMWORDS
  · simp [VP64.putWord, setWordAt, h, hlt]
  · have h' : a % MEMWORDS = a := Nat.mod_eq_of_lt (by omega)
    have h'' : a < MEMWORDS := by omega
    simp [VP64.putWord, setWordAt, h, h', h'']

theorem VP64.Fetch_eq (v : VP64) :
    v.Fetch = some { v with ip := v.pc, ir := v.memory (v.pc % MEMWORDS),
                            pc := v.pc % MEMWORDS + 1, state := 1 } := by
  simp [VP64.Fetch, VP64.NextWord_eq]

theorem VP64.branch_eq (v : VP64) (d : Nat) :
    v.branch d = some { v with ip := (v.pc + d) % W64,
                               ir := v.memory ((v.pc + d) % W64 % MEMWORDS),
                               pc := (v.pc + d) % W64 % MEMWORDS + 1, state := 1 } := by
  simp [VP64.branch, VP64.Fetch_eq]

/-! ## Stacks -/

theorem maskInt_15 (i : Int) : maskInt i 15 = i % 16 := by
  simp [maskInt]

theorem VP64.popS_eq (v : VP64) :
    v.popS = some (v.s ((v.sp - 1) % 16).toNat, { v with sp := (v.sp - 1) % 16 }) := by
  have h0 : 0 ≤ (v.sp - 1) % 16 := Int.emod_nonneg _ (by norm_num)
  have h1 : (v.sp - 1) % 16 < 16 := Int.emod_lt_of_pos _ (by norm_num)
  simp [VP64.popS, readAt, PSDEPTH, PSMASK, maskInt_15, h0, h1]

theorem VP64.popR_eq (v : VP64) :
    v.popR = some (v.r, { v with rp := (v.rp - 1) % 16,
                                 r := v.rs ((v.rp - 1) % 16).toNat }) := by
  have h0 : 0 ≤ (v.rp - 1) % 16 := Int.emod_nonneg _ (by norm_num)
  have h1 : (v.rp - 1) % 16 < 16 := Int.emod_lt_of_pos _ (by norm_num)
  simp [VP64.popR, readAt, RSDEPTH, RSMASK, maskInt_15, h0, h1]

theorem VP64.pushS_eq (v : VP64) (d : Nat) (h0 : 0 ≤ v.sp) (h1 : v.sp < 16) :
    v.pushS d = some { v with s := Function.update v.s v.sp.toNat d,
                              sp := (v.sp + 1) % 16 } := by
  simp [VP64.pushS, writeAt, PSDEPTH, PSMASK, maskInt_15, h0, h1]

theorem VP64.pushR_eq (v : VP64) (d : Nat) (h0 : 0 ≤ v.rp) (h1 : v.rp < 16) :
    v.pushR d = some { v with rs := Function.update v.rs v.rp.toNat v.r,
                              rp := (v.rp + 1) % 16, r := d } := by
  simp [VP64.pushR, writeAt, RSDEPTH, RSMASK, maskInt_15, h0, h1]

/-! ## One call of `Execute` -/

theorem VP64.Execute_of_slot (v : VP64) (op : Nat) (h : ¬ v.fetchDue)
    (hop : v.slotOpcode = some op) :
    v.Execute = VP64.dispatch { v with state := v.state + 1 } op := by
  simp [VP64.Execute, VP64.prefetch, h, hop]

theorem VP64.Execute_of_fetch (v : VP64) (op : Nat) (h : v.fetchDue)
    (hop : slotOf (v.memory (v.pc % MEMWORDS)) 1 = some op) :
    v.Execute = VP64.dispatch
      { v with ip := v.pc, ir := v.memory (v.pc % MEMWORDS),
               pc := v.pc % MEMWORDS + 1, state := 2 } op := by
  simp [VP64.Execute, VP64.prefetch, h, VP64.Fetch_eq, VP64.slotOpcode, hop]

theorem VP64.dispatch_NOP (v : VP64) : v.dispatch NOP = some v := by
  simp [VP64.dispatch]

theorem VP64.dispatch_ADD (v : VP64) :
    v.dispatch ADD = some { v with t := (v.t + v.s ((v.sp - 1) % 16).toNat) % W64,
                                   sp := (v.sp - 1) % 16 } := by
  simp [VP64.dispatch, ADD, NOP, BRA, BZ, BC, CALL, RFS, NEXT, TIMES, LDRP, LDXP, LDI, LDX,
    OR, STXP, RR8, STX, COM, SHL, SHR, MULS, XOR, AND, DIVS, VP64.popS_eq]

/-! ## Runs of `Execute` -/

theorem VP64.run_succ (n : Nat) (v : VP64) : VP64.run (n + 1) v = v.Execute.bind (VP64.run n) := rfl

theorem VP64.run_one (v : VP64) : VP64.run 1 v = v.Execute := by
  simp [VP64.run]

theorem VP64.run_add (m n : Nat) (v : VP64) :
    VP64.run (m + n) v = (VP64.run m v).bind (VP64.run n) := by
  induction m generalizing v with
  | zero => simp [VP64.run]
  | succ m ih =>
    rw [Nat.add_right_comm, VP64.run_succ, VP64.run_succ]
    cases h : v.Execute with
    | none => rfl
    | some u => simpa using ih u

/-- From slot cursor `j`, `k` calls over slots that all hold `NOP` only advance
the slot cursor. -/
theorem VP64.run_nops (k : Nat) : ∀ (v : VP64) (j : Nat), 1 ≤ j → j + k ≤ 11 →
    v.state = (j : Int) →
    (∀ n : Int, (j : Int) ≤ n → n ≤ 10 → slotOf v.ir n = some NOP) →
    VP64.run k v = some { v with state := (j : Int) + (k : Int) } := by
  induction k with
  | zero =>
    intro v j _ _ hst _
    simp [VP64.run, ← hst]
  | succ k ih =>
    intro v j h1 h11 hst hnop
    have hf : ¬ v.fetchDue := by unfold VP64.fetchDue; omega
    have hop : v.slotOpcode = some NOP := hnop v.state (by omega) (by omega)
    rw [VP64.run_succ, VP64.Execute_of_slot v NOP hf hop, VP64.dispatch_NOP, Option.some_bind]
    have hst1 : ({ v with state := v.state + 1 } : VP64).state = ((j + 1 : Nat) : Int) := by
      show v.state + 1 = _
      rw [hst]; push_cast; rfl
    rw [ih { v with state := v.state + 1 } (j + 1) (by omega) (by omega) hst1
      (fun n hn hn10 => hnop n (by push_cast at hn; omega) hn10)]
    have e : ((j + 1 : Nat) : Int) + (k : Int) = (j : Int) + ((k + 1 : Nat) : Int) := by
      push_cast; ring
    simp only [e]

theorem VP64.run_nop_word (v : VP64) (a w : Nat) (hf : v.fetchDue) (hpc : v.pc = a)
    (hw : v.memory (a % MEMWORDS) = w)
    (hnop : ∀ n : Int, 1 ≤ n → n ≤ 10 → slotOf w n = some NOP) (j : Nat) (h1 : 1 ≤ j)
    (h10 : j ≤ 10) :
    VP64.run j v = some { v with ip := a, ir := w, pc := a % MEMWORDS + 1,
                                 state := (j : Int) + 1 } := by
  obtain ⟨k, rfl⟩ : ∃ k, j = 1 + k := ⟨j - 1, by omega⟩
  have hop : slotOf (v.memory (v.pc % MEMWORDS)) 1 = some NOP := by
    rw [hpc, hw]; exact hnop 1 (by norm_num) (by norm_num)
  rw [VP64.run_add, VP64.run_one, VP64.Execute_of_fetch v NOP hf hop, VP64.dispatch_NOP,
    Option.some_bind, hpc, hw]
  rw [VP64.run_nops k _ 2 (by norm_num) (by omega) rfl
    (fun n hn hn10 => hnop n (by push_cast at hn; omega) hn10)]
  have e : ((2 : Nat) : Int) + (k : Int) = ((1 + k : Nat) : Int) + 1 := by
    push_cast; ring
  simp only [e]

theorem VP64.dispatch_BRA (v : VP64) :
    v.dispatch BRA = some { v with ip := (v.pc + v.operand) % W64,
                                   ir := v.memory ((v.pc + v.operand) % W64 % MEMWORDS),
                                   pc := (v.pc + v.operand) % W64 % MEMWORDS + 1,
                                   state := 1 } := by
  simp [VP64.dispatch, BRA, NOP, VP64.branch_eq]

/-! ## The parameter stack seen from its top -/

theorem VP64.paramPush_eq (v : VP64) (x : Nat) (h0 : 0 ≤ v.sp) (h1 : v.sp < 16) :
    v.paramPush x = some { v with s := Function.update v.s v.sp.toNat v.t,
                                  sp := (v.sp + 1) % 16, t := x } := by
  simp [VP64.paramPush, VP64.pushS_eq v v.t h0 h1]

theorem VP64.paramPop_eq (v : VP64) :
    v.paramPop = some (v.t, { v with sp := (v.sp - 1) % 16,
                                     t := v.s ((v.sp - 1) % 16).toNat }) := by
  simp [VP64.paramPop, VP64.popS_eq]

theorem VP64.paramPush_peek (v : VP64) (x : Nat) (h0 : 0 ≤ v.sp) (h1 : v.sp < 16) :
    ∃ u, v.paramPush x = some u ∧ 0 ≤ u.sp ∧ u.sp < 16 ∧ u.peek 0 = x ∧
      ∀ i, i ≤ 15 → u.peek (i + 1) = v.peek i := by
  refine ⟨_, VP64.paramPush_eq v x h0 h1, by simp only; omega, by simp only; omega, rfl, ?_⟩
  intro i hi
  have e : (((v.sp + 1) % 16 - ((i + 1 : Nat) : Int)) % 16).toNat
      = ((v.sp - (i : Int)) % 16).toNat := by
    congr 1; push_cast; omega
  simp only [VP64.peek, Nat.succ_ne_zero, if_false]
  rw [e]
  by_cases hi0 : i = 0
  · subst hi0
    have e0 : ((v.sp - ((0 : Nat) : Int)) % 16).toNat = v.sp.toNat := by
      congr 1; push_cast; omega
    rw [e0, Function.update_same, if_pos rfl]
  · have ne : ((v.sp - (i : Int)) % 16).toNat ≠ v.sp.toNat := by omega
    rw [Function.update_noteq ne, if_neg hi0]

theorem VP64.paramPop_peek (v : VP64) :
    ∃ u, v.paramPop = some (v.peek 0, u) ∧ ∀ i, u.peek i = v.peek (i + 1) := by
  refine ⟨_, VP64.paramPop_eq v, ?_⟩
  intro i
  by_cases hi0 : i = 0
  · subst hi0
    simp [VP64.peek]
  · have e : ((v.sp - 1) % 16 - (i : Int)) % 16 = (v.sp - ((i + 1 : Nat) : Int)) % 16 := by
      push_cast; omega
    simp [VP64.peek, e, hi0]

theorem VP64.pushAll_append (xs ys : List Nat) (v : VP64) :
    VP64.pushAll (xs ++ ys) v = (VP64.pushAll xs v).bind (VP64.pushAll ys) := by
  induction xs generalizing v with
  | nil => simp [VP64.pushAll]
  | cons x xs ih =>
    simp only [List.cons_append, VP64.pushAll]
    cases h : v.paramPush x with
    | none => rfl
    | some u => simpa using ih u

theorem VP64.pushAll_peek (xs : List Nat) (v : VP64) (h0 : 0 ≤ v.sp) (h1 : v.sp < 16) :
    ∃ u, VP64.pushAll xs v = some u ∧ 0 ≤ u.sp ∧ u.sp < 16 ∧
      ∀ i, i < xs.length → i ≤ 16 → u.peek i = xs.reverse.getD i 0 := by
  induction xs using List.reverseRecOn with
  | nil => exact ⟨v, rfl, h0, h1, fun i hi => absurd hi (by simp)⟩
  | append_singleton xs x ih =>
    obtain ⟨u, hu, hu0, hu1, hpk⟩ := ih
    obtain ⟨u1, hp, hp0, hp1, htop, hrest⟩ := VP64.paramPush_peek u x hu0 hu1
    refine ⟨u1, ?_, hp0, hp1, ?_⟩
    · rw [VP64.pushAll_append, hu]
      simp [VP64.pushAll, hp]
    · intro i hi hi16
      rw [List.reverse_append]
      cases i with
      | zero => simpa using htop
      | succ j =>
        have hj : j < xs.length := by simpa using hi
        rw [hrest j (by omega), hpk j hj (by omega)]
        simp

theorem VP64.popN_peek (n : Nat) : ∀ v : VP64,
    ∃ u, VP64.popN n v = some ((List.range n).map v.peek, u) ∧
      ∀ i, u.peek i = v.peek (i + n) := by
  induction n with
  | zero => intro v; exact ⟨v, rfl, fun i => rfl⟩
  | succ n ih =>
    intro v
    obtain ⟨u1, hp, hpk⟩ := VP64.paramPop_peek v
    obtain ⟨u, hu, huk⟩ := ih u1
    refine ⟨u, ?_, ?_⟩
    · simp only [VP64.popN, hp, Option.some_bind, hu, List.range_succ_eq_map, List.map_cons,
        List.map_map]
      congr 3
      apply List.map_congr_left
      intro i _
      simp [hpk]
    · intro i
      rw [huk, hpk]
      congr 1

theorem VP64.dispatch_TX (v : VP64) :
    v.dispatch TX = (v.pushS v.t).bind fun v1 => some { v1 with t := v1.x } := by
  simp [VP64.dispatch, TX, NOP, BRA, BZ, BC, CALL, RFS, NEXT, TIMES, LDRP, LDXP, LDI, LDX,
    OR, STXP, RR8, STX, COM, SHL, SHR, MULS, XOR, AND, DIVS, ADD, POP]

theorem VP64.dispatch_TX_paramPush (v : VP64) : v.dispatch TX = v.paramPush v.x := by
  rw [VP64.dispatch_TX]
  simp only [VP64.paramPush, VP64.pushS, writeAt]
  by_cases h : 0 ≤ v.sp ∧ v.sp < ((PSDEPTH : Nat) : Int)
  · simp only [if_pos h, Option.some_bind]
  · simp only [if_neg h, Option.none_bind]

theorem VP64.dispatch_DROP_paramPop (v : VP64) :
    v.dispatch DROP = v.paramPop.map Prod.snd := by
  simp [VP64.dispatch, DROP, ADD, NOP, BRA, BZ, BC, CALL, RFS, NEXT, TIMES, LDRP, LDXP, LDI, LDX,
    OR, STXP, RR8, STX, COM, SHL, SHR, MULS, XOR, AND, DIVS, POP, TX, DUP, OVER, PUSH, XT,
    VP64.popS_eq, VP64.paramPop]

/-! ## Opcodes of the end-to-end scenario -/

theorem VP64.dispatch_LDI (v : VP64) (h0 : 0 ≤ v.sp) (h1 : v.sp < 16) :
    v.dispatch LDI = some { v with s := Function.update v.s v.sp.toNat v.t,
                                   sp := (v.sp + 1) % 16,
                                   t := v.memory (v.pc % MEMWORDS),
                                   pc := v.pc % MEMWORDS + 1 } := by
  simp [VP64.dispatch, LDI, NOP, BRA, BZ, BC, CALL, RFS, NEXT, TIMES, LDRP, LDXP,
    VP64.pushS_eq v v.t h0 h1, VP64.NextWord_eq]

theorem VP64.dispatch_DROP (v : VP64) :
    v.dispatch DROP = some { v with t := v.s ((v.sp - 1) % 16).toNat,
                                    sp := (v.sp - 1) % 16 } := by
  simp [VP64.dispatch, DROP, ADD, NOP, BRA, BZ, BC, CALL, RFS, NEXT, TIMES, LDRP, LDXP, LDI, LDX,
    OR, STXP, RR8, STX, COM, SHL, SHR, MULS, XOR, AND, DIVS, POP, TX, DUP, OVER, PUSH, XT,
    VP64.popS_eq]

theorem VP64.run_trans {m n : Nat} {v u w : VP64} (h1 : VP64.run m v = some u)
    (h2 : VP64.run n u = some w) : VP64.run (m + n) v = some w := by
  rw [VP64.run_add, h1, Option.some_bind, h2]

theorem VP64.run_step {m : Nat} {v u w : VP64} (h1 : VP64.run m v = some u)
    (h2 : u.Execute = some w) : VP64.run (m + 1) v = some w :=
  VP64.run_trans h1 ((VP64.run_one u).trans h2)

/-! ## The arms of the `switch`, in closed form -/

theorem VP64.dispatch_BZ (v : VP64) :
    v.dispatch BZ = if v.t = 0 then v.dispatch BRA else v.dispatch NOP := rfl

theorem VP64.dispatch_BC (v : VP64) :
    v.dispatch BC = if v.t &&& 0x8000000000000000 ≠ 0 then v.dispatch BRA else v.dispatch NOP :=
  rfl

theorem VP64.dispatch_CALL (v : VP64) (h0 : 0 ≤ v.rp) (h1 : v.rp < 16) :
    v.dispatch CALL = some { v with rs := Function.update v.rs v.rp.toNat v.r,
                                    rp := (v.rp + 1) % 16, r := v.pc,
                                    ip := (v.pc + v.operand) % W64,
                                    ir := v.memory ((v.pc + v.operand) % W64 % MEMWORDS),
                                    pc := (v.pc + v.operand) % W64 % MEMWORDS + 1,
                                    state := 1 } := by
  rw [show v.dispatch CALL = (v.pushR v.pc).bind fun v1 => v1.branch v1.operand from rfl,
    VP64.pushR_eq v v.pc h0 h1, Option.some_bind, VP64.branch_eq]
  rfl

theorem VP64.dispatch_RFS (v : VP64) :
    v.dispatch RFS = some { v with rp := (v.rp - 1) % 16, r := v.rs ((v.rp - 1) % 16).toNat,
                                   ip := v.r, ir := v.memory (v.r % MEMWORDS),
                                   pc := v.r % MEMWORDS + 1, state := 1 } := by
  rw [show v.dispatch RFS = v.popR.bind fun p => VP64.Fetch { p.2 with pc := p.1 } from rfl,
    VP64.popR_eq, Option.some_bind, VP64.Fetch_eq]

theorem VP64.dispatch_NEXT (v : VP64) :
    v.dispatch NEXT = if v.r ≠ 0 then
        some { v with r := v.r - 1, ip := (v.pc + v.operand) % W64,
                      ir := v.memory ((v.pc + v.operand) % W64 % MEMWORDS),
                      pc := (v.pc + v.operand) % W64 % MEMWORDS + 1, state := 1 }
      else some v := by
  rw [show v.dispatch NEXT = (if v.r ≠ 0 then
      VP64.branch { v with r := v.r - 1 } (VP64.operand { v with r := v.r - 1 })
      else some v) from rfl, VP64.branch_eq]
  rfl

theorem VP64.dispatch_TIMES (v : VP64) :
    v.dispatch TIMES = if v.r ≠ 0 then
        some { v with r := v.r - 1, ip := v.ip, ir := v.memory (v.ip % MEMWORDS),
                      pc := v.ip % MEMWORDS + 1, state := 1 }
      else some v := by
  rw [show v.dispatch TIMES = (if v.r ≠ 0 then
      VP64.Fetch { v with r := v.r - 1, pc := v.ip } else some v) from rfl, VP64.Fetch_eq]

theorem VP64.dispatch_LDRP (v : VP64) (h0 : 0 ≤ v.sp) (h1 : v.sp < 16) :
    v.dispatch LDRP = some { v with s := Function.update v.s v.sp.toNat v.t,
                                    sp := (v.sp + 1) % 16,
                                    t := v.memory (v.r % MEMWORDS),
                                    r := (v.r + 1) % W64 } := by
  rw [show v.dispatch LDRP = (v.pushS v.t).bind fun v1 => (v1.getWord v1.r).bind fun p =>
      some { p.2 with t := p.1, r := (p.2.r + 1) % W64 } from rfl,
    VP64.pushS_eq v v.t h0 h1, Option.some_bind, VP64.getWord_eq, Option.some_bind]

theorem VP64.dispatch_LDXP (v : VP64) (h0 : 0 ≤ v.sp) (h1 : v.sp < 16) :
    v.dispatch LDXP = some { v with s := Function.update v.s v.sp.toNat v.t,
                                    sp := (v.sp + 1) % 16,
                                    t := v.memory (v.x % MEMWORDS),
                                    x := (v.x + 1) % W64 } := by
  rw [show v.dispatch LDXP = (v.pushS v.t).bind fun v1 => (v1.getWord v1.x).bind fun p =>
      some { p.2 with t := p.1, x := (p.2.x + 1) % W64 } from rfl,
    VP64.pushS_eq v v.t h0 h1, Option.some_bind, VP64.getWord_eq, Option.some_bind]

theorem VP64.dispatch_LDX (v : VP64) (h0 : 0 ≤ v.sp) (h1 : v.sp < 16) :
    v.dispatch LDX = some { v with s := Function.update v.s v.sp.toNat v.t,
                                   sp := (v.sp + 1) % 16,
                                   t := v.memory (v.x % MEMWORDS) } := by
  rw [show v.dispatch LDX = (v.pushS v.t).bind fun v1 => (v1.getWord v1.x).bind fun p =>
      some { p.2 with t := p.1 } from rfl,
    VP64.pushS_eq v v.t h0 h1, Option.some_bind, VP64.getWord_eq, Option.some_bind]

theorem VP64.dispatch_OR (v : VP64) :
    v.dispatch OR = some { v with t := v.t ||| v.s ((v.sp - 1) % 16).toNat,
                                  sp := (v.sp - 1) % 16 } := by
  rw [show v.dispatch OR = v.popS.bind fun p => some { p.2 with t := v.t ||| p.1 } from rfl,
    VP64.popS_eq, Option.some_bind]

theorem VP64.dispatch_XOR (v : VP64) :
    v.dispatch XOR = some { v with t := v.t ^^^ v.s ((v.sp - 1) % 16).toNat,
                                   sp := (v.sp - 1) % 16 } := by
  rw [show v.dispatch XOR = v.popS.bind fun p => some { p.2 with t := v.t ^^^ p.1 } from rfl,
    VP64.popS_eq, Option.some_bind]

theorem VP64.dispatch_AND (v : VP64) :
    v.dispatch AND = some { v with t := v.t &&& v.s ((v.sp - 1) % 16).toNat,
                                   sp := (v.sp - 1) % 16 } := by
  rw [show v.dispatch AND = v.popS.bind fun p => some { p.2 with t := v.t &&& p.1 } from rfl,
    VP64.popS_eq, Option.some_bind]

theorem VP64.dispatch_STXP (v : VP64) :
    v.dispatch STXP = some { v with memory := Function.update v.memory (v.x % MEMWORDS) v.t,
                                    t := v.s ((v.sp - 1) % 16).toNat,
                                    sp := (v.sp - 1) % 16, x := (v.x + 1) % W64 } := by
  rw [show v.dispatch STXP = (v.putWord v.x v.t).bind fun v1 => v1.popS.bind fun p =>
      some { p.2 with t := p.1, x := (p.2.x + 1) % W64 } from rfl,
    VP64.putWord_eq, Option.some_bind, VP64.popS_eq, Option.some_bind]

theorem VP64.dispatch_STX (v : VP64) :
    v.dispatch STX = some { v with memory := Function.update v.memory (v.x % MEMWORDS) v.t,
                                   t := v.s ((v.sp - 1) % 16).toNat,
                                   sp := (v.sp - 1) % 16 } := by
  rw [show v.dispatch STX = (v.putWord v.x v.t).bind fun v1 => v1.popS.bind fun p =>
      some { p.2 with t := p.1 } from rfl,
    VP64.putWord_eq, Option.some_bind, VP64.popS_eq, Option.some_bind]

theorem VP64.dispatch_RR8 (v : VP64) :
    v.dispatch RR8 = some { v with t := (v.t >>> 8) ||| ((v.t <<< 56) % W64) } := rfl

theorem VP64.dispatch_COM (v : VP64) :
    v.dispatch COM = some { v with t := v.t ^^^ (W64 - 1) } := rfl

theorem VP64.dispatch_SHL (v : VP64) :
    v.dispatch SHL = some { v with t := (v.t <<< 1) % W64 } := rfl

theorem VP64.dispatch_SHR (v : VP64) :
    v.dispatch SHR = some { v with t := v.t >>> 1 } := rfl

theorem VP64.dispatch_MULS (v : VP64) :
    v.dispatch MULS = some { v with t := 0xDEADFEEDC0DE0BAD } := rfl

theorem VP64.dispatch_DIVS (v : VP64) :
    v.dispatch DIVS = some { v with t := 0xFEEDDEADC0DE0BAD } := rfl

theorem VP64.dispatch_POP (v : VP64) (h0 : 0 ≤ v.sp) (h1 : v.sp < 16) :
    v.dispatch POP = some { v with s := Function.update v.s v.sp.toNat v.t,
                                   sp := (v.sp + 1) % 16, t := v.r,
                                   rp := (v.rp - 1) % 16,
                                   r := v.rs ((v.rp - 1) % 16).toNat } := by
  rw [show v.dispatch POP = (v.pushS v.t).bind fun v1 => v1.popR.bind fun p =>
      some { p.2 with t := p.1 } from rfl,
    VP64.pushS_eq v v.t h0 h1, Option.some_bind, VP64.popR_eq, Option.some_bind]

theorem VP64.dispatch_TX_eq (v : VP64) (h0 : 0 ≤ v.sp) (h1 : v.sp < 16) :
    v.dispatch TX = some { v with s := Function.update v.s v.sp.toNat v.t,
                                  sp := (v.sp + 1) % 16, t := v.x } := by
  rw [VP64.dispatch_TX, VP64.pushS_eq v v.t h0 h1, Option.some_bind]

theorem VP64.dispatch_DUP (v : VP64) (h0 : 0 ≤ v.sp) (h1 : v.sp < 16) :
    v.dispatch DUP = some { v with s := Function.update v.s v.sp.toNat v.t,
                                   sp := (v.sp + 1) % 16 } := by
  rw [show v.dispatch DUP = v.pushS v.t from rfl, VP64.pushS_eq v v.t h0 h1]

theorem VP64.dispatch_OVER (v : VP64) (h0 : 0 ≤ v.sp) (h1 : v.sp < 16) :
    v.dispatch OVER = some { v with s := Function.update v.s v.sp.toNat v.t,
                                    sp := (v.sp + 1) % 16, t := v.s v.sp.toNat } := by
  have hr : readAt PSDEPTH v.s v.sp = some (v.s v.sp.toNat) := by
    simp [readAt, PSDEPTH, h0, h1]
  rw [show v.dispatch OVER = (readAt PSDEPTH v.s v.sp).bind fun x =>
      (v.pushS v.t).bind fun v1 => some { v1 with t := x } from rfl,
    hr, Option.some_bind, VP64.pushS_eq v v.t h0 h1, Option.some_bind]

theorem VP64.dispatch_PUSH (v : VP64) (h0 : 0 ≤ v.rp) (h1 : v.rp < 16) :
    v.dispatch PUSH = some { v with rs := Function.update v.rs v.rp.toNat v.r,
                                    rp := (v.rp + 1) % 16, r := v.t,
                                    sp := (v.sp - 1) % 16,
                                    t := v.s ((v.sp - 1) % 16).toNat } := by
  rw [show v.dispatch PUSH = (v.pushR v.t).bind fun v1 => v1.popS.bind fun p =>
      some { p.2 with t := p.1 } from rfl,
    VP64.pushR_eq v v.t h0 h1, Option.some_bind, VP64.popS_eq, Option.some_bind]

theorem VP64.dispatch_XT (v : VP64) :
    v.dispatch XT = some { v with x := v.t, sp := (v.sp - 1) % 16,
                                  t := v.s ((v.sp - 1) % 16).toNat } := by
  rw [show v.dispatch XT = (VP64.popS { v with x := v.t }).bind fun p =>
      some { p.2 with t := p.1 } from rfl, VP64.popS_eq, Option.some_bind]

/-- The all-zero word has `NOP` in each of its ten slots. -/
theorem slotOf_zero_NOP (n : Int) (h1 : 1 ≤ n) (h10 : n ≤ 10) : slotOf 0 n = some NOP := by
  interval_cases n <;> simp [slotOf, shiftAt, shifts, NOP]

/-! ## No call of `Execute` faults -/

theorem VP64.dispatch_unassigned (v : VP64) (op : Nat) (h : op ∉ assignedOpcodes) :
    v.dispatch op = some v := by
  simp only [assignedOpcodes, List.mem_cons, List.mem_singleton, not_or, List.mem_nil_iff,
    or_false] at h
  obtain ⟨h0, h1, h2, h3, h4, h5, h6, h7, h8, h9, h10, h11, h12, h13, h14, h15, h16, h17, h18,
    h19, h20, h21, h22, h23, h24, h25, h26, h27, h28, h29, h30⟩ := h
  unfold VP64.dispatch
  rw [if_neg h0, if_neg h1, if_neg h2, if_neg h3, if_neg h4, if_neg h5, if_neg h6, if_neg h7,
    if_neg h8, if_neg h9, if_neg h10, if_neg h11, if_neg h12, if_neg h13, if_neg h14,
    if_neg h15, if_neg h16, if_neg h17, if_neg h18, if_neg h19, if_neg h20, if_neg h21,
    if_neg h22, if_neg h23, if_neg h24, if_neg h25, if_neg h26, if_neg h27, if_neg h28,
    if_neg h29, if_neg h30]

theorem VP64.safe_some {u : VP64} {o : Option VP64} (h : o = some u)
    (hs0 : 0 ≤ u.sp) (hs1 : u.sp < 16) (hr0 : 0 ≤ u.rp) (hr1 : u.rp < 16)
    (h1 : 1 ≤ u.state) (h11 : u.state ≤ 11) :
    ∃ u, o = some u ∧ u.pointersInRange ∧ 1 ≤ u.state ∧ u.state ≤ 11 :=
  ⟨u, h, ⟨hs0, hs1, hr0, hr1⟩, h1, h11⟩

theorem VP64.dispatch_safe (v : VP64) (op : Nat) (hp : v.pointersInRange)
    (h1 : 1 ≤ v.state) (h11 : v.state ≤ 11) :
    ∃ u, v.dispatch op = some u ∧ u.pointersInRange ∧ 1 ≤ u.state ∧ u.state ≤ 11 := by
  obtain ⟨hs0, hs1, hr0, hr1⟩ := hp
  by_cases hop : op ∈ assignedOpcodes
  · simp only [assignedOpcodes, List.mem_cons, List.mem_singleton, List.mem_nil_iff,
      or_false] at hop
    rcases hop with h | h | h | h | h | h | h | h | h | h | h | h | h | h | h | h | h | h | h |
      h | h | h | h | h | h | h | h | h | h | h | h <;> subst h
    · refine VP64.safe_some (VP64.dispatch_NOP v) ?_ ?_ ?_ ?_ ?_ ?_ <;> (dsimp only; omega)
    · refine VP64.safe_some (VP64.dispatch_BRA v) ?_ ?_ ?_ ?_ ?_ ?_ <;> (dsimp only; omega)
    · rw [VP64.dispatch_BZ]
      split
      · refine VP64.safe_some (VP64.dispatch_BRA v) ?_ ?_ ?_ ?_ ?_ ?_ <;> (dsimp only; omega)
      · refine VP64.safe_some (VP64.dispatch_NOP v) ?_ ?_ ?_ ?_ ?_ ?_ <;> (dsimp only; omega)
    · rw [VP64.dispatch_BC]
      split
      · refine VP64.safe_some (VP64.dispatch_BRA v) ?_ ?_ ?_ ?_ ?_ ?_ <;> (dsimp only; omega)
      · refine VP64.safe_some (VP64.dispatch_NOP v) ?_ ?_ ?_ ?_ ?_ ?_ <;> (dsimp only; omega)
    · refine VP64.safe_some (VP64.dispatch_CALL v hr0 hr1) ?_ ?_ ?_ ?_ ?_ ?_ <;>
        (dsimp only; omega)
    · refine VP64.safe_some (VP64.dispatch_RFS v) ?_ ?_ ?_ ?_ ?_ ?_ <;> (dsimp only; omega)
    · rw [VP64.dispatch_NEXT]
      split
      · refine VP64.safe_some rfl ?_ ?_ ?_ ?_ ?_ ?_ <;> (dsimp only; omega)
      · refine VP64.safe_some rfl ?_ ?_ ?_ ?_ ?_ ?_ <;> omega
    · rw [VP64.dispatch_TIMES]
      split
      · refine VP64.safe_some rfl ?_ ?_ ?_ ?_ ?_ ?_ <;> (dsimp only; omega)
      · refine VP64.safe_some rfl ?_ ?_ ?_ ?_ ?_ ?_ <;> omega
    · refine VP64.safe_some (VP64.dispatch_LDRP v hs0 hs1) ?_ ?_ ?_ ?_ ?_ ?_ <;>
        (dsimp only; omega)
    · refine VP64.safe_some (VP64.dispatch_LDXP v hs0 hs1) ?_ ?_ ?_ ?_ ?_ ?_ <;>
        (dsimp only; omega)
    · refine VP64.safe_some (VP64.dispatch_LDI v hs0 hs1) ?_ ?_ ?_ ?_ ?_ ?_ <;>
        (dsimp only; omega)
    · refine VP64.safe_some (VP64.dispatch_LDX v hs0 hs1) ?_ ?_ ?_ ?_ ?_ ?_ <;>
        (dsimp only; omega)
    · refine VP64.safe_some (VP64.dispatch_OR v) ?_ ?_ ?_ ?_ ?_ ?_ <;> (dsimp only; omega)
    · refine VP64.safe_some (VP64.dispatch_STXP v) ?_ ?_ ?_ ?_ ?_ ?_ <;> (dsimp only; omega)
    · refine VP64.safe_some (VP64.dispatch_RR8 v) ?_ ?_ ?_ ?_ ?_ ?_ <;> (dsimp only; omega)
    · refine VP64.safe_some (VP64.dispatch_STX v) ?_ ?_ ?_ ?_ ?_ ?_ <;> (dsimp only; omega)
    · refine VP64.safe_some (VP64.dispatch_COM v) ?_ ?_ ?_ ?_ ?_ ?_ <;> (dsimp only; omega)
    · refine VP64.safe_some (VP64.dispatch_SHL v) ?_ ?_ ?_ ?_ ?_ ?_ <;> (dsimp only; omega)
    · refine VP64.safe_some (VP64.dispatch_SHR v) ?_ ?_ ?_ ?_ ?_ ?_ <;> (dsimp only; omega)
    · refine VP64.safe_some (VP64.dispatch_MULS v) ?_ ?_ ?_ ?_ ?_ ?_ <;> (dsimp only; omega)
    · refine VP64.safe_some (VP64.dispatch_XOR v) ?_ ?_ ?_ ?_ ?_ ?_ <;> (dsimp only; omega)
    · refine VP64.safe_some (VP64.dispatch_AND v) ?_ ?_ ?_ ?_ ?_ ?_ <;> (dsimp only; omega)
    · refine VP64.safe_some (VP64.dispatch_DIVS v) ?_ ?_ ?_ ?_ ?_ ?_ <;> (dsimp only; omega)
    · refine VP64.safe_some (VP64.dispatch_ADD v) ?_ ?_ ?_ ?_ ?_ ?_ <;> (dsimp only; omega)
    · refine VP64.safe_some (VP64.dispatch_POP v hs0 hs1) ?_ ?_ ?_ ?_ ?_ ?_ <;>
        (dsimp only; omega)
    · refine VP64.safe_some (VP64.dispatch_TX_eq v hs0 hs1) ?_ ?_ ?_ ?_ ?_ ?_ <;>
        (dsimp only; omega)
    · refine VP64.safe_some (VP64.dispatch_DUP v hs0 hs1) ?_ ?_ ?_ ?_ ?_ ?_ <;>
        (dsimp only; omega)
    · refine VP64.safe_some (VP64.dispatch_OVER v hs0 hs1) ?_ ?_ ?_ ?_ ?_ ?_ <;>
        (dsimp only; omega)
    · refine VP64.safe_some (VP64.dispatch_PUSH v hr0 hr1) ?_ ?_ ?_ ?_ ?_ ?_ <;>
        (dsimp only; omega)
    · refine VP64.safe_some (VP64.dispatch_XT v) ?_ ?_ ?_ ?_ ?_ ?_ <;> (dsimp only; omega)
    · refine VP64.safe_some (VP64.dispatch_DROP v) ?_ ?_ ?_ ?_ ?_ ?_ <;> (dsimp only; omega)
  · exact VP64.safe_some (VP64.dispatch_unassigned v op hop) hs0 hs1 hr0 hr1 h1 h11

theorem shiftAt_some (n : Int) (h1 : 1 ≤ n) (h10 : n ≤ 10) : ∃ sh, shiftAt n = some sh := by
  interval_cases n <;> simp [shiftAt, shifts]

theorem VP64.prefetch_safe (v : VP64) :
    ∃ v1, v.prefetch = some v1 ∧ 1 ≤ v1.state ∧ v1.state ≤ 10 ∧ v1.sp = v.sp ∧
      v1.rp = v.rp := by
  by_cases hf : v.fetchDue
  · refine ⟨_, (if_pos hf).trans (VP64.Fetch_eq v), ?_, ?_, rfl, rfl⟩ <;> (dsimp only; omega)
  · refine ⟨v, if_neg hf, ?_, ?_, rfl, rfl⟩ <;> (unfold VP64.fetchDue at hf; omega)

theorem VP64.Execute_safe (v : VP64) (hp : v.pointersInRange) :
    ∃ u, v.Execute = some u ∧ u.pointersInRange ∧ 1 ≤ u.state ∧ u.state ≤ 11 := by
  obtain ⟨v1, hv1, h1, h10, hsp, hrp⟩ := VP64.prefetch_safe v
  obtain ⟨sh, hsh⟩ := shiftAt_some v1.state h1 h10
  have hp1 : VP64.pointersInRange { v1 with state := v1.state + 1 } := by
    obtain ⟨a, b, c, d⟩ := hp
    exact ⟨hsp ▸ a, hsp ▸ b, hrp ▸ c, hrp ▸ d⟩
  have hd := VP64.dispatch_safe { v1 with state := v1.state + 1 } ((v1.ir >>> sh) &&& 63) hp1
    (by dsimp only; omega) (by dsimp only; omega)
  have he : v.Execute =
      VP64.dispatch { v1 with state := v1.state + 1 } ((v1.ir >>> sh) &&& 63) := by
    simp [VP64.Execute, hv1, VP64.slotOpcode, slotOf, hsh]
  rw [he]
  exact hd

theorem VP64.run_safe (n : Nat) : ∀ v : VP64, v.pointersInRange →
    ∃ u, VP64.run n v = some u ∧ u.pointersInRange := by
  induction n with
  | zero => intro v hp; exact ⟨v, rfl, hp⟩
  | succ n ih =>
    intro v hp
    obtain ⟨u, hu, hpu, -, -⟩ := VP64.Execute_safe v hp
    obtain ⟨w, hw, hpw⟩ := ih u hpu
    exact ⟨w, by rw [VP64.run_succ, hu, Option.some_bind, hw], hpw⟩

/-! ## The sign bit of `T` -/

theorem and_msb_ne_zero (t : Nat) : t &&& 0x8000000000000000 ≠ 0 ↔ t.testBit 63 = true := by
  have h := Nat.and_two_pow t 63
  rw [show (0x8000000000000000 : Nat) = 2 ^ 63 from by norm_num, h]
  cases t.testBit 63 <;> simp

/-! ## The operand field -/

theorem VP64.operand_mod (v : VP64) : v.operand % 2 ^ 54 = (v.ir >>> 4) % 2 ^ 54 := by
  have hlt : (v.ir >>> 4) % 2 ^ 54 < 2 ^ 54 := Nat.mod_lt _ (by norm_num)
  rw [VP64.operand_eq]
  split <;> omega

theorem VP64.operand_high (v : VP64) :
    v.operand / 2 ^ 54 = if v.ir.testBit 57 then 1023 else 0 := by
  have hlt : (v.ir >>> 4) % 2 ^ 54 < 2 ^ 54 := Nat.mod_lt _ (by norm_num)
  have hb : v.ir.testBit 57 = decide (2 ^ 53 ≤ (v.ir >>> 4) % 2 ^ 54) := by
    rw [← testBit_53_of_lt _ hlt, Nat.testBit_mod_two_pow, Nat.testBit_shiftRight]
    simp
  rw [VP64.operand_eq, hb]
  by_cases h : (v.ir >>> 4) % 2 ^ 54 < 2 ^ 53
  · rw [if_pos h]
    have : ¬ (2 ^ 53 ≤ (v.ir >>> 4) % 2 ^ 54) := by omega
    simp only [this, decide_False, Bool.false_eq_true, if_false]
    omega
  · rw [if_neg h]
    have : 2 ^ 53 ≤ (v.ir >>> 4) % 2 ^ 54 := by omega
    simp only [this, decide_True, if_true]
    omega

theorem field_flip (ir i : Nat) (h4 : 4 ≤ i) (h57 : i ≤ 57) :
    ((ir ^^^ 2 ^ i) >>> 4) % 2 ^ 54 ≠ (ir >>> 4) % 2 ^ 54 := by
  intro h
  have := congrArg (fun x => Nat.testBit x (i - 4)) h
  simp only [Nat.testBit_mod_two_pow, Nat.testBit_shiftRight, Nat.testBit_xor,
    Nat.testBit_two_pow] at this
  have e : 4 + (i - 4) = i := by omega
  have l : i - 4 < 54 := by omega
  rw [e] at this
  simp [l] at this

/-! ## A `SHL TIMES` loop -/

theorem shlTimesOps_count (k : Nat) : (shlTimesOps k).count SHL = k := by
  induction k with
  | zero => rfl
  | succ k ih =>
    rw [shlTimesOps, List.count_cons_self, List.count_cons_of_ne (by decide), ih]

theorem shl_mul_pow (t k : Nat) :
    (((t <<< 1) % W64) * 2 ^ k) % W64 = (t * 2 ^ (k + 1)) % W64 := by
  rw [Nat.shiftLeft_eq, Nat.mod_mul_mod, pow_succ]
  congr 1
  ring

theorem VP64.dispatchTrace_succ (n : Nat) (v : VP64) :
    VP64.dispatchTrace (n + 1) v = v.dispatched.bind fun op =>
      v.Execute.bind fun u => (VP64.dispatchTrace n u).bind fun ops => some (op :: ops) := rfl

theorem VP64.prefetch_entersAt (v : VP64) (a : Nat) (ha : a < MEMWORDS) (h : v.entersAt a) :
    v.prefetch = some { v with ip := a, ir := v.memory a, pc := a + 1, state := 1 } := by
  have hmod : a % MEMWORDS = a := Nat.mod_eq_of_lt ha
  rcases h with ⟨hf, hpc⟩ | ⟨hst, hip, hpc, hir⟩
  · rw [VP64.prefetch, if_pos hf, VP64.Fetch_eq, hpc, hmod]
  · have hf : ¬ v.fetchDue := by unfold VP64.fetchDue; omega
    rw [VP64.prefetch, if_neg hf]
    obtain ⟨e, m, x, t, s, r, rs, sp, rp, pc, ip, ir, st⟩ := v
    simp only at hst hip hpc hir
    subst hst hip hpc hir
    rfl

/-- The first two calls on a word `SHL TIMES ...` entered at address `a`. -/
theorem VP64.shl_times_pass (v : VP64) (a : Nat) (ha : a < MEMWORDS) (h : v.entersAt a)
    (h1 : slotOf (v.memory a) 1 = some SHL) (h2 : slotOf (v.memory a) 2 = some TIMES) :
    v.dispatched = some SHL ∧
    v.Execute = some { v with ip := a, ir := v.memory a, pc := a + 1, state := 2,
                              t := (v.t <<< 1) % W64 } ∧
    VP64.dispatched { v with ip := a, ir := v.memory a, pc := a + 1, state := 2,
                             t := (v.t <<< 1) % W64 } = some TIMES ∧
    VP64.Execute { v with ip := a, ir := v.memory a, pc := a + 1, state := 2,
                          t := (v.t <<< 1) % W64 } =
      (if v.r ≠ 0 then
        some { v with ip := a, ir := v.memory a, pc := a + 1, state := 1,
                      t := (v.t <<< 1) % W64, r := v.r - 1 }
      else
        some { v with ip := a, ir := v.memory a, pc := a + 1, state := 3,
                      t := (v.t <<< 1) % W64 }) := by
  have hmod : a % MEMWORDS = a := Nat.mod_eq_of_lt ha
  have hp := VP64.prefetch_entersAt v a ha h
  have hnf : ¬ VP64.fetchDue { v with ip := a, ir := v.memory a, pc := a + 1, state := 2,
                                      t := (v.t <<< 1) % W64 } := by
    simp [VP64.fetchDue]
  refine ⟨?_, ?_, ?_, ?_⟩
  · rw [VP64.dispatched, hp]; exact h1
  · rw [VP64.Execute, hp, Option.some_bind]
    rw [show VP64.slotOpcode { v with ip := a, ir := v.memory a, pc := a + 1, state := 1 }
      = some SHL from h1, Option.some_bind, VP64.dispatch_SHL]
    rfl
  · rw [VP64.dispatched, VP64.prefetch, if_neg hnf]; exact h2
  · refine (VP64.Execute_of_slot _ TIMES hnf h2).trans ?_
    rw [VP64.dispatch_TIMES]
    dsimp only
    rw [hmod]
    rfl

theorem VP64.shl_times_loop (j : Nat) : ∀ (v : VP64) (a : Nat), a < MEMWORDS →
    v.entersAt a → v.r = j →
    slotOf (v.memory a) 1 = some SHL → slotOf (v.memory a) 2 = some TIMES →
    VP64.run (2 * (j + 1)) v
        = some { v with ip := a, ir := v.memory a, pc := a + 1, r := 0,
                        t := (v.t * 2 ^ (j + 1)) % W64, state := 3 } ∧
      VP64.dispatchTrace (2 * (j + 1)) v = some (shlTimesOps (j + 1)) ∧
      ∀ m, 1 ≤ m → m < 2 * (j + 1) →
        ∃ u, VP64.run m v = some u ∧ u.ip = a ∧ u.ir = v.memory a ∧ u.pc = a + 1 ∧
          (u.state = 1 ∨ u.state = 2) := by
  induction j with
  | zero =>
    intro v a ha hent hr h1 h2
    obtain ⟨d1, e1, d2, e2⟩ := VP64.shl_times_pass v a ha hent h1 h2
    rw [if_neg (by simp [hr])] at e2
    have r1 := (VP64.run_one v).trans e1
    have r2 := VP64.run_step r1 e2
    refine ⟨?_, ?_, ?_⟩
    · rw [show 2 * (0 + 1) = 1 + 1 from rfl, r2]
      simp [hr, Nat.shiftLeft_eq]
    · rw [show 2 * (0 + 1) = 0 + 1 + 1 from rfl, VP64.dispatchTrace_succ, d1, Option.some_bind,
        e1, Option.some_bind, VP64.dispatchTrace_succ, d2, Option.some_bind, e2]
      rfl
    · intro m hm1 hm2
      obtain rfl : m = 1 := by omega
      exact ⟨_, r1, rfl, rfl, rfl, Or.inr rfl⟩
  | succ j ih =>
    intro v a ha hent hr h1 h2
    obtain ⟨d1, e1, d2, e2⟩ := VP64.shl_times_pass v a ha hent h1 h2
    rw [if_pos (by simp [hr])] at e2
    have r1 := (VP64.run_one v).trans e1
    have r2 := VP64.run_step r1 e2
    obtain ⟨f1, f2, f3⟩ := ih
      { v with ip := a, ir := v.memory a, pc := a + 1, state := 1,
               t := (v.t <<< 1) % W64, r := v.r - 1 } a ha
      (Or.inr ⟨rfl, rfl, rfl, rfl⟩) (by simp [hr]) h1 h2
    refine ⟨?_, ?_, ?_⟩
    · rw [show 2 * (j + 1 + 1) = 1 + 1 + 2 * (j + 1) from by ring, VP64.run_trans r2 f1]
      simp only [shl_mul_pow]
    · rw [show 2 * (j + 1 + 1) = 2 * (j + 1) + 1 + 1 from by ring, VP64.dispatchTrace_succ, d1,
        Option.some_bind, e1, Option.some_bind, VP64.dispatchTrace_succ, d2, Option.some_bind,
        e2, Option.some_bind, f2]
      rfl
    · intro m hm1 hm2
      by_cases hm : m ≤ 2
      · interval_cases m
        · exact ⟨_, r1, rfl, rfl, rfl, Or.inr rfl⟩
        · exact ⟨_, r2, rfl, rfl, rfl, Or.inl rfl⟩
      · obtain ⟨k, rfl⟩ : ∃ k, m = 1 + 1 + k := ⟨m - 2, by omega⟩
        obtain ⟨u, hu, q1, q2, q3, q4⟩ := f3 k (by omega) (by omega)
        exact ⟨u, VP64.run_trans r2 hu, q1, q2, q3, q4⟩

/-! ## Claims -/

/-- C1. Slot decoding undoes slot packing: when `w` packs the opcodes
`o 1 .. o 10` (each below 64) at bit offsets 58, 52, ..., 4 above four low bits
`b`, the opcode `Execute` reads at slot cursor `n` in 1..10 is `o n`; the shift
used is `64 - 6 n`, the opcode is the six bits of `w` from that offset, and the
low four bits `b` play no part. -/
theorem C1_slot_decode_unpacks (o : Nat → Nat) (b w n : Nat)
    (ho : ∀ i, 1 ≤ i → i ≤ 10 → o i < 64) (hb : b < 16)
    (hw : w = o 1 * 2 ^ 58 + o 2 * 2 ^ 52 + o 3 * 2 ^ 46 + o 4 * 2 ^ 40 + o 5 * 2 ^ 34 +
      o 6 * 2 ^ 28 + o 7 * 2 ^ 22 + o 8 * 2 ^ 16 + o 9 * 2 ^ 10 + o 10 * 2 ^ 4 + b)
    (hn1 : 1 ≤ n) (hn : n ≤ 10) (v : VP64) (hir : v.ir = w) (hst : v.state = (n : Int)) :
    shiftAt v.state = some (64 - 6 * n) ∧
    v.slotOpcode = some (o n) ∧
    v.slotOpcode = some (w / 2 ^ (64 - 6 * n) % 2 ^ 6) := by
  have h1 := ho 1 (by norm_num) (by norm_num)
  have h2 := ho 2 (by norm_num) (by norm_num)
  have h3 := ho 3 (by norm_num) (by norm_num)
  have h4 := ho 4 (by norm_num) (by norm_num)
  have h5 := ho 5 (by norm_num) (by norm_num)
  have h6 := ho 6 (by norm_num) (by norm_num)
  have h7 := ho 7 (by norm_num) (by norm_num)
  have h8 := ho 8 (by norm_num) (by norm_num)
  have h9 := ho 9 (by norm_num) (by norm_num)
  have h10 := ho 10 (by norm_num) (by norm_num)
  interval_cases n <;>
    simp [VP64.slotOpcode, slotOf, shiftAt, shifts, and_63_eq_mod,
      Nat.shiftRight_eq_div_pow, hir, hst] <;> omega

/-- Witness for C1: the word packing opcodes 1, 2, ..., 10 over low bits 5,
read at slot cursor 3. -/
theorem C1_slot_decode_unpacks_witness :
    ({ VP64.zero with ir := 0x0420C41461C824A5, state := 3 } : VP64).slotOpcode = some 3 :=
  (C1_slot_decode_unpacks (fun i => i) 5 0x0420C41461C824A5 3 (fun i _ h => by simp; omega)
    (by decide) (by norm_num) (by decide) (by decide)
    { VP64.zero with ir := 0x0420C41461C824A5, state := 3 } rfl rfl).2.1

/-- C2. Slot cycling: from a machine whose slot cursor is outside 1..10, with
program counter `a` and `memory[a mod MEMWORDS] = w` where all ten slots of `w`
are `NOP`, the `k`-th `Execute` call (`k` in 1..10) dispatches slot `k` of `w`
and leaves the slot cursor at `k + 1` with `ip = a`, `ir = w`,
`pc = (a mod MEMWORDS) + 1` and all else as at the start; only the first of the
ten calls begins with a fetch; the eleventh call begins with a fetch, which
takes the word at address `(a mod MEMWORDS) + 1` (reduced modulo `MEMWORDS`). -/
theorem C2_slot_cycling (v : VP64) (a w : Nat) (hf : v.fetchDue) (hpc : v.pc = a)
    (hw : v.memory (a % MEMWORDS) = w)
    (hnop : ∀ n : Int, 1 ≤ n → n ≤ 10 → slotOf w n = some NOP) :
    (∀ k : Nat, 1 ≤ k → k ≤ 10 →
      ∃ u, VP64.run (k - 1) v = some u ∧ (u.fetchDue ↔ k = 1) ∧
        u.dispatched = slotOf w (k : Int) ∧
        u.Execute = some { v with ip := a, ir := w, pc := a % MEMWORDS + 1,
                                  state := (k : Int) + 1 } ∧
        VP64.run k v = some { v with ip := a, ir := w, pc := a % MEMWORDS + 1,
                                     state := (k : Int) + 1 }) ∧
    (∃ u p, VP64.run 10 v = some u ∧ u.fetchDue ∧ u.prefetch = some p ∧
      p.ip = a % MEMWORDS + 1 ∧ p.ir = v.memory ((a % MEMWORDS + 1) % MEMWORDS) ∧
      p.state = 1) := by
  have hrun := VP64.run_nop_word v a w hf hpc hw hnop
  constructor
  · intro k h1 h10
    have hk := hrun k h1 h10
    by_cases hk1 : k = 1
    · subst hk1
      refine ⟨v, rfl, by simp [hf], ?_, ?_, hk⟩
      · simp [VP64.dispatched, VP64.prefetch, hf, VP64.Fetch_eq, VP64.slotOpcode, hpc, hw]
      · rw [← VP64.run_one]; exact hk
    · obtain ⟨j, rfl⟩ : ∃ j, k = j + 1 := ⟨k - 1, by omega⟩
      have hj := hrun j (by omega) (by omega)
      have hnf : ¬ ({ v with ip := a, ir := w, pc := a % MEMWORDS + 1,
                             state := (j : Int) + 1 } : VP64).fetchDue := by
        simp only [VP64.fetchDue]; omega
      refine ⟨_, hj, by simp [hnf, hk1], ?_, ?_, hk⟩
      · simp only [VP64.dispatched, VP64.prefetch, if_neg hnf, Option.some_bind,
          VP64.slotOpcode]
        push_cast; rfl
      · have := VP64.run_add j 1 v
        rw [hj, Option.some_bind, VP64.run_one] at this
        rw [← this]; exact hk
  · have h10 := hrun 10 (by norm_num) (by norm_num)
    have hfd : ({ v with ip := a, ir := w, pc := a % MEMWORDS + 1,
                         state := ((10 : Nat) : Int) + 1 } : VP64).fetchDue := by
      simp [VP64.fetchDue]
    have hp := VP64.Fetch_eq { v with ip := a, ir := w, pc := a % MEMWORDS + 1,
                                      state := ((10 : Nat) : Int) + 1 }
    have hp1 : VP64.prefetch { v with ip := a, ir := w, pc := a % MEMWORDS + 1,
                                      state := ((10 : Nat) : Int) + 1 } = _ :=
      (if_pos hfd).trans hp
    exact ⟨_, _, h10, hfd, hp1, rfl, rfl, rfl⟩

/-- Witness for C2: the zero machine, whose memory holds only all-`NOP` words. -/
theorem C2_slot_cycling_witness :
    ∃ u p, VP64.run 10 VP64.zero = some u ∧ u.fetchDue ∧ u.prefetch = some p ∧
      p.ip = 0 % MEMWORDS + 1 ∧ p.ir = VP64.zero.memory ((0 % MEMWORDS + 1) % MEMWORDS) ∧
      p.state = 1 :=
  (C2_slot_cycling VP64.zero 0 0 (Or.inl (by decide)) rfl rfl slotOf_zero_NOP).2

/-- C3. Control-transfer truncation: from a machine whose slot cursor is outside
1..10, with program counter `a` and `memory[a mod MEMWORDS] = w` whose slot 1 is
`BRA`, one `Execute` call ends with `ip = p`, `ir = memory[p mod MEMWORDS]`,
`pc = (p mod MEMWORDS) + 1` and slot cursor 1, where
`p = ((a mod MEMWORDS) + 1 + operand(w)) mod 2^64`; the next call does not fetch
and dispatches slot 1 of the target word, so slots 2..10 of `w` are skipped; `T`,
`X`, `R`, both stack pointers, both stack buffers and memory are unchanged. -/
theorem C3_bra_truncates_word (v : VP64) (a w : Nat) (hf : v.fetchDue) (hpc : v.pc = a)
    (hw : v.memory (a % MEMWORDS) = w) (hbra : slotOf w 1 = some BRA) :
    ∃ u, v.Execute = some u ∧
      u = { v with ip := (a % MEMWORDS + 1 + ({ v with ir := w } : VP64).operand) % 2 ^ 64,
                   ir := v.memory
                     ((a % MEMWORDS + 1 + ({ v with ir := w } : VP64).operand) % 2 ^ 64
                       % MEMWORDS),
                   pc := (a % MEMWORDS + 1 + ({ v with ir := w } : VP64).operand) % 2 ^ 64
                       % MEMWORDS + 1,
                   state := 1 } ∧
      ¬ u.fetchDue ∧ u.dispatched = slotOf u.ir 1 ∧
      u.t = v.t ∧ u.x = v.x ∧ u.r = v.r ∧ u.sp = v.sp ∧ u.rp = v.rp ∧ u.s = v.s ∧
      u.rs = v.rs ∧ u.memory = v.memory := by
  have hop : slotOf (v.memory (v.pc % MEMWORDS)) 1 = some BRA := by rw [hpc, hw]; exact hbra
  have h := VP64.Execute_of_fetch v BRA hf hop
  rw [VP64.dispatch_BRA] at h
  refine ⟨_, h, ?_, ?_, ?_, rfl, rfl, rfl, rfl, rfl, rfl, rfl, rfl⟩
  · simp [hpc, hw, VP64.operand, W64]
  · simp [VP64.fetchDue]
  · simp [VP64.dispatched, VP64.prefetch, VP64.fetchDue, VP64.slotOpcode]

/-- Witness for C3: a memory filled with the word `BRA` with operand 0. -/
theorem C3_bra_truncates_word_witness :
    ∃ u, ({ VP64.zero with memory := fun _ => 0x0400000000000000 } : VP64).Execute = some u ∧
      u.ip = 1 ∧ u.ir = 0x0400000000000000 ∧ u.pc = 2 ∧ u.state = 1 := by
  obtain ⟨u, h, hu, -⟩ := C3_bra_truncates_word
    { VP64.zero with memory := fun _ => 0x0400000000000000 } 0 0x0400000000000000
    (Or.inl (by decide)) rfl rfl (by decide)
  refine ⟨u, h, ?_⟩
  subst hu
  refine ⟨?_, rfl, ?_, rfl⟩ <;> decide

/-- C4. Operand sign extension: with `f` the 54-bit field at bits 4..57 of the
instruction register, `operand()` is `f` when `f < 2^53` and `f + 2^64 - 2^54`
when `f ≥ 2^53`, which is the 64-bit two's-complement form of `f - 2^54`; the
boot word `0x07FFFFFFFFFFFFE0`, which `LoadROMs` stores at address 1, has
operand `0xFFFFFFFFFFFFFFFE`, that is -2. -/
theorem C4_operand_sign_extension :
    (∀ v : VP64,
      ((v.ir >>> 4) % 2 ^ 54 < 2 ^ 53 → v.operand = (v.ir >>> 4) % 2 ^ 54) ∧
      (2 ^ 53 ≤ (v.ir >>> 4) % 2 ^ 54 →
        v.operand = (v.ir >>> 4) % 2 ^ 54 + 2 ^ 64 - 2 ^ 54 ∧
        (v.operand : Int) = (((v.ir >>> 4) % 2 ^ 54 : Nat) - 2 ^ 54 : Int) % 2 ^ 64)) ∧
    (∀ v : VP64, v.ir = 0x07FFFFFFFFFFFFE0 →
      v.operand = 0xFFFFFFFFFFFFFFFE ∧ (v.operand : Int) = (-2 : Int) % 2 ^ 64) ∧
    (∀ v : VP64, ∃ v1, v.LoadROMs = some v1 ∧ v1.memory 1 = 0x07FFFFFFFFFFFFE0) := by
  refine ⟨fun v => ⟨fun h => ?_, fun h => ?_⟩, fun v h => ?_, fun v => ?_⟩
  · rw [VP64.operand_eq, if_pos h]
  · have hlt : (v.ir >>> 4) % 2 ^ 54 < 2 ^ 54 := Nat.mod_lt _ (by norm_num)
    rw [VP64.operand_eq, if_neg (by omega)]
    refine ⟨rfl, ?_⟩
    omega
  · have e : v.operand = 0xFFFFFFFFFFFFFFFE := by
      unfold VP64.operand
      rw [h]
      decide
    rw [e]
    exact ⟨rfl, by norm_num⟩
  · simp [VP64.LoadROMs, setWordAt, MEMWORDS, Function.update]

/-- C5. Address wraparound: `getWord a` returns `memory[a mod MEMWORDS]` and
leaves the machine as it was; `putWord a d` stores `d` at `a mod MEMWORDS` and
changes no other memory word and no register; so an access at `MEMWORDS + k`
with `k < MEMWORDS` gives the same value and the same machine as one at `k`. -/
theorem C5_address_wraparound (v : VP64) (a d : Nat) :
    MEMWORDS = 2 ^ 20 ∧
    v.getWord a = some (v.memory (a % MEMWORDS), v) ∧
    (∃ v1, v.putWord a d = some v1 ∧
      v1.memory (a % MEMWORDS) = d ∧
      (∀ i, i ≠ a % MEMWORDS → v1.memory i = v.memory i) ∧
      v1 = { v with memory := v1.memory } ∧
      v1.exitRequested = v.exitRequested ∧ v1.x = v.x ∧ v1.t = v.t ∧ v1.s = v.s ∧
      v1.r = v.r ∧ v1.rs = v.rs ∧ v1.sp = v.sp ∧ v1.rp = v.rp ∧ v1.pc = v.pc ∧
      v1.ip = v.ip ∧ v1.ir = v.ir ∧ v1.state = v.state) ∧
    (∀ k, k < MEMWORDS →
      v.getWord (MEMWORDS + k) = v.getWord k ∧
      v.putWord (MEMWORDS + k) d = v.putWord k d) := by
  refine ⟨by decide, VP64.getWord_eq v a, ⟨_, VP64.putWord_eq v a d, ?_⟩, fun k hk => ?_⟩
  · refine ⟨by simp, fun i hi => ?_, rfl, rfl, rfl, rfl, rfl, rfl, rfl, rfl, rfl, rfl,
      rfl, rfl, rfl⟩
    simp [Function.update, hi]
  · have h : (MEMWORDS + k) % MEMWORDS = k % MEMWORDS := by simp
    simp [VP64.getWord_eq, VP64.putWord_eq, h]

/-- C6. Fetch-and-advance: for every machine, `NextWord` returns
`memory[pc mod MEMWORDS]`, sets the program counter to `(pc mod MEMWORDS) + 1`
and changes nothing else; the address read is below `MEMWORDS` and the new
program counter is at most `MEMWORDS`. -/
theorem C6_NextWord_fetch_and_advance (v : VP64) :
    (∃ p, v.NextWord = some p ∧
      p.1 = v.memory (v.pc % MEMWORDS) ∧
      p.2 = { v with pc := v.pc % MEMWORDS + 1 } ∧
      p.2.pc = v.pc % MEMWORDS + 1 ∧ p.2.pc ≤ MEMWORDS ∧
      p.2.memory = v.memory ∧ p.2.exitRequested = v.exitRequested ∧ p.2.x = v.x ∧
      p.2.t = v.t ∧ p.2.s = v.s ∧ p.2.r = v.r ∧ p.2.rs = v.rs ∧ p.2.sp = v.sp ∧
      p.2.rp = v.rp ∧ p.2.ip = v.ip ∧ p.2.ir = v.ir ∧ p.2.state = v.state) ∧
    wordAt MEMWORDS v.memory (v.pc % MEMWORDS) = some (v.memory (v.pc % MEMWORDS)) := by
  have hlt : v.pc % MEMWORDS < MEMWORDS := Nat.mod_lt _ (by decide)
  refine ⟨⟨_, VP64.NextWord_eq v, rfl, rfl, rfl, ?_, rfl, rfl, rfl, rfl, rfl, rfl, rfl,
    rfl, rfl, rfl, rfl, rfl⟩, ?_⟩
  · show v.pc % MEMWORDS + 1 ≤ MEMWORDS
    omega
  · simp [wordAt, hlt]

/-- C7. Stack wraparound: with a parameter push of `x` being `pushS(T); T = x`
and a parameter pop being "read `T`; `T = popS()`", from any machine with
`0 ≤ sp < 16`, pushing seventeen values `a1 .. a17` and popping sixteen times
yields `a17, a16, ..., a2`, and a seventeenth pop yields `a1`; every step
completes, so no index leaves its array. `TX` is such a push (of `X`) and `DROP`
such a pop. -/
theorem C7_stack_wraparound (v : VP64) (h0 : 0 ≤ v.sp) (h1 : v.sp < 16)
    (a1 a2 a3 a4 a5 a6 a7 a8 a9 a10 a11 a12 a13 a14 a15 a16 a17 : Nat) :
    ∃ u u1 u2,
      VP64.pushAll [a1, a2, a3, a4, a5, a6, a7, a8, a9, a10, a11, a12, a13, a14, a15, a16, a17] v
        = some u ∧
      VP64.popN 16 u
        = some ([a17, a16, a15, a14, a13, a12, a11, a10, a9, a8, a7, a6, a5, a4, a3, a2], u1) ∧
      u1.paramPop = some (a1, u2) ∧
      (∀ m : VP64, m.dispatch TX = m.paramPush m.x) ∧
      (∀ m : VP64, m.dispatch DROP = m.paramPop.map Prod.snd) := by
  obtain ⟨u, hu, -, -, hpk⟩ := VP64.pushAll_peek
    [a1, a2, a3, a4, a5, a6, a7, a8, a9, a10, a11, a12, a13, a14, a15, a16, a17] v h0 h1
  obtain ⟨u1, hu1, hpk1⟩ := VP64.popN_peek 16 u
  obtain ⟨u2, hu2, -⟩ := VP64.paramPop_peek u1
  refine ⟨u, u1, u2, hu, ?_, ?_, VP64.dispatch_TX_paramPush, VP64.dispatch_DROP_paramPop⟩
  · rw [hu1]
    have e : List.range 16 = [0, 1, 2, 3, 4, 5, 6, 7, 8, 9, 10, 11, 12, 13, 14, 15] := by decide
    simp only [e, List.map_cons, List.map_nil]
    rw [hpk 0 (by simp) (by norm_num), hpk 1 (by simp) (by norm_num),
      hpk 2 (by simp) (by norm_num), hpk 3 (by simp) (by norm_num),
      hpk 4 (by simp) (by norm_num), hpk 5 (by simp) (by norm_num),
      hpk 6 (by simp) (by norm_num), hpk 7 (by simp) (by norm_num),
      hpk 8 (by simp) (by norm_num), hpk 9 (by simp) (by norm_num),
      hpk 10 (by simp) (by norm_num), hpk 11 (by simp) (by norm_num),
      hpk 12 (by simp) (by norm_num), hpk 13 (by simp) (by norm_num),
      hpk 14 (by simp) (by norm_num), hpk 15 (by simp) (by norm_num)]
    rfl
  · rw [hu2, hpk1 0, hpk 16 (by simp) (by norm_num)]
    rfl

/-- Witness for C7: the values 1..17 pushed on the zero machine. -/
theorem C7_stack_wraparound_witness :
    ∃ u u1 u2,
      VP64.pushAll [1, 2, 3, 4, 5, 6, 7, 8, 9, 10, 11, 12, 13, 14, 15, 16, 17] VP64.zero
        = some u ∧
      VP64.popN 16 u
        = some ([17, 16, 15, 14, 13, 12, 11, 10, 9, 8, 7, 6, 5, 4, 3, 2], u1) ∧
      u1.paramPop = some (1, u2) ∧
      (∀ m : VP64, m.dispatch TX = m.paramPush m.x) ∧
      (∀ m : VP64, m.dispatch DROP = m.paramPop.map Prod.snd) :=
  C7_stack_wraparound VP64.zero (by decide) (by decide)
    1 2 3 4 5 6 7 8 9 10 11 12 13 14 15 16 17

/-- C8. Immediate load end to end: from a machine whose slot cursor is outside
1..10, with `pc = 0`, `0 ≤ sp < 16`, `memory[0]` packing `LDI`, `ADD`, `DROP` and
seven `NOP`s, and `memory[1] = imm`: after the first `Execute`, `T = imm` and
`pc = 2`; after the second, `T = (T0 + imm) mod 2^64` (which is `imm` when
`T0 = 0`); after the third, `T` is the buffer entry that lay at `(sp - 1) mod 16`
at the start; after ten, `pc = 2` and the slot cursor is 11, and the next fetch
takes the word at address 2; through all ten calls the instruction register
holds `memory[0]`, so the word at address 1 is never decoded. -/
theorem C8_immediate_load_end_to_end (v : VP64) (imm : Nat) (hf : v.fetchDue) (hpc : v.pc = 0)
    (h0 : 0 ≤ v.sp) (h1 : v.sp < 16)
    (hm0 : v.memory 0 = LDI * 2 ^ 58 + ADD * 2 ^ 52 + DROP * 2 ^ 46)
    (hm1 : v.memory 1 = imm) :
    (∃ u1 u2 u3 u10,
      VP64.run 1 v = some u1 ∧ u1.t = imm ∧ u1.pc = 2 ∧
      VP64.run 2 v = some u2 ∧ u2.t = (v.t + imm) % 2 ^ 64 ∧
      (v.t = 0 → imm < 2 ^ 64 → u2.t = imm) ∧
      VP64.run 3 v = some u3 ∧ u3.t = v.s ((v.sp - 1) % 16).toNat ∧
      VP64.run 10 v = some u10 ∧ u10.pc = 2 ∧ u10.state = 11 ∧
      u10.t = v.s ((v.sp - 1) % 16).toNat ∧ u10.memory = v.memory ∧
      u10.fetchDue ∧ ∃ p, u10.prefetch = some p ∧ p.ip = 2 ∧ p.ir = v.memory 2) ∧
    (∀ k, 1 ≤ k → k ≤ 10 →
      ∃ u, VP64.run k v = some u ∧ u.ir = v.memory 0 ∧ u.ip = 0 ∧ u.pc = 2) := by
  have hs1 : slotOf (v.memory (v.pc % MEMWORDS)) 1 = some LDI := by
    rw [hpc, show 0 % MEMWORDS = 0 from rfl, hm0]; decide
  have hs2 : slotOf (v.memory 0) 2 = some ADD := by rw [hm0]; decide
  have hs3 : slotOf (v.memory 0) 3 = some DROP := by rw [hm0]; decide
  have hnop : ∀ n : Int, 4 ≤ n → n ≤ 10 → slotOf (v.memory 0) n = some NOP := by
    intro n h4 h10
    rw [hm0]
    interval_cases n <;> decide
  have e1 := VP64.Execute_of_fetch v LDI hf hs1
  rw [VP64.dispatch_LDI] at e1
  rotate_left
  · exact h0
  · exact h1
  simp only [hpc, show 0 % MEMWORDS = 0 from rfl, show (0 + 1) % MEMWORDS = 1 from rfl, hm1]
    at e1
  have e2 : VP64.Execute
      { v with t := imm, s := Function.update v.s v.sp.toNat v.t, sp := (v.sp + 1) % 16,
               pc := 1 + 1, ip := 0, ir := v.memory 0, state := 2 } =
      some { v with t := (imm + v.t) % W64, s := Function.update v.s v.sp.toNat v.t,
                    sp := v.sp, pc := 1 + 1, ip := 0, ir := v.memory 0, state := 2 + 1 } := by
    refine (VP64.Execute_of_slot _ ADD ?_ ?_).trans ?_
    · simp [VP64.fetchDue]
    · exact hs2
    · rw [VP64.dispatch_ADD]
      have e : ((v.sp + 1) % 16 - 1) % 16 = v.sp := by omega
      simp only
      rw [e, Function.update_same]
  have e3 : VP64.Execute
      { v with t := (imm + v.t) % W64, s := Function.update v.s v.sp.toNat v.t,
               sp := v.sp, pc := 1 + 1, ip := 0, ir := v.memory 0, state := 2 + 1 } =
      some { v with t := v.s ((v.sp - 1) % 16).toNat, s := Function.update v.s v.sp.toNat v.t,
                    sp := (v.sp - 1) % 16, pc := 1 + 1, ip := 0, ir := v.memory 0,
                    state := 2 + 1 + 1 } := by
    refine (VP64.Execute_of_slot _ DROP ?_ ?_).trans ?_
    · simp [VP64.fetchDue]
    · exact hs3
    · rw [VP64.dispatch_DROP]
      have ne : ((v.sp - 1) % 16).toNat ≠ v.sp.toNat := by omega
      simp only
      rw [Function.update_noteq ne]
  have e10 := VP64.run_nops 7
    { v with t := v.s ((v.sp - 1) % 16).toNat, s := Function.update v.s v.sp.toNat v.t,
             sp := (v.sp - 1) % 16, pc := 1 + 1, ip := 0, ir := v.memory 0,
             state := 2 + 1 + 1 } 4 (by norm_num) (by norm_num) (by norm_num)
    (fun n hn hn10 => hnop n (by push_cast at hn; omega) hn10)
  have r1 := (VP64.run_one v).trans e1
  have r2 := VP64.run_step r1 e2
  have r3 := VP64.run_step r2 e3
  have r10 := VP64.run_trans r3 e10
  constructor
  · refine ⟨_, _, _, _, r1, rfl, rfl, r2, ?_, ?_, r3, rfl, r10, rfl, ?_, rfl, rfl, ?_, ?_⟩
    · show (imm + v.t) % W64 = (v.t + imm) % 2 ^ 64
      rw [Nat.add_comm]; rfl
    · intro ht hi
      show (imm + v.t) % W64 = imm
      rw [ht, Nat.add_zero]
      exact Nat.mod_eq_of_lt hi
    · norm_num
    · simp [VP64.fetchDue]
    · refine ⟨_, (if_pos ?_).trans (VP64.Fetch_eq _), rfl, rfl⟩
      simp [VP64.fetchDue]
  · intro k hk1 hk10
    by_cases hk3 : k ≤ 3
    · interval_cases k
      · exact ⟨_, r1, rfl, rfl, rfl⟩
      · exact ⟨_, r2, rfl, rfl, rfl⟩
      · exact ⟨_, r3, rfl, rfl, rfl⟩
    · obtain ⟨j, rfl⟩ : ∃ j, k = 3 + j := ⟨k - 3, by omega⟩
      have ej := VP64.run_nops j
        { v with t := v.s ((v.sp - 1) % 16).toNat, s := Function.update v.s v.sp.toNat v.t,
                 sp := (v.sp - 1) % 16, pc := 1 + 1, ip := 0, ir := v.memory 0,
                 state := 2 + 1 + 1 } 4 (by norm_num) (by omega) (by norm_num)
        (fun n hn hn10 => hnop n (by push_cast at hn; omega) hn10)
      exact ⟨_, VP64.run_trans r3 ej, rfl, rfl, rfl⟩

/-- Witness for C8: the zero machine with the scenario word at address 0 and the
immediate 7 everywhere else. -/
theorem C8_immediate_load_end_to_end_witness :
    ∃ u, VP64.run 10
        { VP64.zero with memory := fun a => if a = 0 then 0x2977C00000000000 else 7 }
        = some u ∧
      u.ir = (fun a => if a = 0 then 0x2977C00000000000 else 7) 0 ∧ u.ip = 0 ∧ u.pc = 2 :=
  (C8_immediate_load_end_to_end
    { VP64.zero with memory := fun a => if a = 0 then 0x2977C00000000000 else 7 } 7
    (Or.inl (by decide)) rfl (by decide) (by decide) (by decide) rfl).2 10
    (by decide) (by decide)

/-- C9. `ADD` wraps silently: when the slot cursor is in 1..10 and selects an
`ADD` slot, one `Execute` sets `T` to `(T + s[(sp - 1) mod 16]) mod 2^64` and `sp`
to `(sp - 1) mod 16`, advances the slot cursor by one and changes nothing else
(no fetch is made); with `T` and the popped entry both `2^64 - 1` the new `T` is
`2^64 - 2`. -/
theorem C9_add_wraps (v : VP64) (h1 : 1 ≤ v.state) (h10 : v.state ≤ 10)
    (hop : v.slotOpcode = some ADD) (hs0 : 0 ≤ v.sp) (hs1 : v.sp < 16) :
    ¬ v.fetchDue ∧
    0 ≤ (v.sp - 1) % 16 ∧ (v.sp - 1) % 16 < 16 ∧
    ((v.sp - 1) % 16 = if v.sp = 0 then 15 else v.sp - 1) ∧
    v.Execute = some { v with t := (v.t + v.s ((v.sp - 1) % 16).toNat) % 2 ^ 64,
                              sp := (v.sp - 1) % 16, state := v.state + 1 } ∧
    (v.t = 2 ^ 64 - 1 → v.s ((v.sp - 1) % 16).toNat = 2 ^ 64 - 1 →
      ∃ v1, v.Execute = some v1 ∧ v1.t = 2 ^ 64 - 2) := by
  have hf : ¬ v.fetchDue := by unfold VP64.fetchDue; omega
  have h := VP64.Execute_of_slot v ADD hf hop
  rw [VP64.dispatch_ADD] at h
  refine ⟨hf, by omega, by omega, ?_, h, fun ht hs => ⟨_, h, ?_⟩⟩
  · split <;> omega
  · simp [ht, hs, W64]

/-- Witness for C9: `ADD` in slot 1 with `T` and every buffer entry `2^64 - 1`. -/
theorem C9_add_wraps_witness :
    ({ VP64.zero with ir := 0x5C00000000000000, state := 1, t := 2 ^ 64 - 1,
                      s := fun _ => 2 ^ 64 - 1 } : VP64).Execute =
      some { VP64.zero with ir := 0x5C00000000000000, state := 1 + 1,
                            t := (2 ^ 64 - 1 + (2 ^ 64 - 1)) % 2 ^ 64,
                            s := fun _ => 2 ^ 64 - 1, sp := (0 - 1) % 16 } :=
  (C9_add_wraps { VP64.zero with ir := 0x5C00000000000000, state := 1, t := 2 ^ 64 - 1,
                                 s := fun _ => 2 ^ 64 - 1 }
    (by decide) (by decide) (by decide) (by decide) (by decide)).2.2.2.2.1

/-- C10. `NOP` has no side effects: from slot cursor 1 with `NOP` in all ten
slots of the instruction register, ten `Execute` calls change the slot cursor
to 11 and nothing else. -/
theorem C10_nop_no_side_effects (v : VP64) (hst : v.state = 1)
    (hnop : ∀ n : Int, 1 ≤ n → n ≤ 10 → slotOf v.ir n = some NOP) :
    VP64.run 10 v = some { v with state := 11 } := by
  have := VP64.run_nops 10 v 1 (by norm_num) (by norm_num) (by simp [hst])
    (fun n hn hn10 => hnop n (by push_cast at hn; omega) hn10)
  simpa using this

/-- Witness for C10: the zero machine with its slot cursor at 1. -/
theorem C10_nop_no_side_effects_witness :
    VP64.run 10 { VP64.zero with state := 1 } =
      some { ({ VP64.zero with state := 1 } : VP64) with state := 11 } :=
  C10_nop_no_side_effects { VP64.zero with state := 1 } rfl slotOf_zero_NOP

/-- C11. The core never aborts: from any machine with `0 ≤ sp < 16` and
`0 ≤ rp < 16`, whatever its slot cursor, registers and memory, the fetch (when
due) and the read of `shifts` at the cursor succeed, `Execute` returns a machine,
and that machine again has `0 ≤ sp < 16`, `0 ≤ rp < 16` and its slot cursor in
1..11; hence every run of `Execute` calls returns a machine. The zero machine
and every machine after `Reset` have their stack pointers in range. -/
theorem C11_core_never_aborts (v : VP64) (hp : v.pointersInRange) :
    (∃ v1 sh, v.prefetch = some v1 ∧ 1 ≤ v1.state ∧ v1.state ≤ 10 ∧
      shiftAt v1.state = some sh) ∧
    (∃ u, v.Execute = some u ∧ 0 ≤ u.sp ∧ u.sp < 16 ∧ 0 ≤ u.rp ∧ u.rp < 16 ∧
      1 ≤ u.state ∧ u.state ≤ 11) ∧
    (∀ n, ∃ u, VP64.run n v = some u ∧ u.pointersInRange) ∧
    VP64.zero.pointersInRange ∧
    (∀ w : VP64, w.Reset.pointersInRange) := by
  refine ⟨?_, ?_, fun n => VP64.run_safe n v hp,
    ⟨by decide, by decide, by decide, by decide⟩, fun w => ?_⟩
  · obtain ⟨v1, hv1, h1, h10, -, -⟩ := VP64.prefetch_safe v
    obtain ⟨sh, hsh⟩ := shiftAt_some v1.state h1 h10
    exact ⟨v1, sh, hv1, h1, h10, hsh⟩
  · obtain ⟨u, hu, ⟨a, b, c, d⟩, e, f⟩ := VP64.Execute_safe v hp
    exact ⟨u, hu, a, b, c, d, e, f⟩
  · simp only [VP64.pointersInRange, VP64.Reset, maskInt]
    norm_num
    omega

/-- Witness for C11: the zero machine. -/
theorem C11_core_never_aborts_witness :
    ∃ u, VP64.zero.Execute = some u ∧ 0 ≤ u.sp ∧ u.sp < 16 ∧ 0 ≤ u.rp ∧ u.rp < 16 ∧
      1 ≤ u.state ∧ u.state ≤ 11 :=
  (C11_core_never_aborts VP64.zero ⟨by decide, by decide, by decide, by decide⟩).2.1

/-- C12. `TIMES` re-executes the same word: when the slot cursor is in 1..10 and
selects a `TIMES` slot, then with `R ≠ 0` one `Execute` sets `R` to `R - 1`, keeps
`ip`, reloads `ir` with `memory[ip mod MEMWORDS]`, sets `pc` to
`(ip mod MEMWORDS) + 1` and the slot cursor to 1, so that the next call
dispatches slot 1 of that word without fetching; with `R = 0` it only advances
the slot cursor by one. Either way `T`, `X`, both stack pointers, both stack
buffers, memory and `ip` are unchanged. -/
theorem C12_times_reexecutes_word (v : VP64) (h1 : 1 ≤ v.state) (h10 : v.state ≤ 10)
    (hop : v.slotOpcode = some TIMES) :
    (v.r ≠ 0 →
      v.Execute = some { v with r := v.r - 1, ip := v.ip, ir := v.memory (v.ip % MEMWORDS),
                                pc := v.ip % MEMWORDS + 1, state := 1 } ∧
      ∃ u, v.Execute = some u ∧ ¬ u.fetchDue ∧
        u.dispatched = slotOf (v.memory (v.ip % MEMWORDS)) 1) ∧
    (v.r = 0 → v.Execute = some { v with state := v.state + 1 }) ∧
    (∃ u, v.Execute = some u ∧ u.t = v.t ∧ u.x = v.x ∧ u.sp = v.sp ∧ u.rp = v.rp ∧
      u.s = v.s ∧ u.rs = v.rs ∧ u.memory = v.memory ∧ u.ip = v.ip) := by
  have hf : ¬ v.fetchDue := by unfold VP64.fetchDue; omega
  have h := VP64.Execute_of_slot v TIMES hf hop
  rw [VP64.dispatch_TIMES] at h
  dsimp only at h
  by_cases hr : v.r ≠ 0
  · rw [if_pos hr] at h
    refine ⟨fun _ => ⟨h, _, h, ?_, ?_⟩, fun h0 => absurd h0 hr,
      _, h, rfl, rfl, rfl, rfl, rfl, rfl, rfl, rfl⟩
    · simp [VP64.fetchDue]
    · simp [VP64.dispatched, VP64.prefetch, VP64.fetchDue, VP64.slotOpcode]
  · rw [if_neg hr] at h
    exact ⟨fun h0 => absurd h0 hr, fun _ => h, _, h, rfl, rfl, rfl, rfl, rfl, rfl, rfl, rfl⟩

/-- Witness for C12: `TIMES` in slot 1 with `R = 3`. -/
theorem C12_times_reexecutes_word_witness :
    ∃ u, ({ VP64.zero with ir := 0x1C00000000000000, state := 1, r := 3 } : VP64).Execute
        = some u ∧ u.t = 0 ∧ u.x = 0 ∧ u.sp = 0 ∧ u.rp = 0 ∧
      u.s = (fun _ => 0) ∧ u.rs = (fun _ => 0) ∧ u.memory = (fun _ => 0) ∧ u.ip = 0 :=
  (C12_times_reexecutes_word { VP64.zero with ir := 0x1C00000000000000, state := 1, r := 3 }
    (by decide) (by decide) (by decide)).2.2

/-- C13. Conditional branches test `T` without consuming it: when the slot cursor
is in 1..10, a `BZ` slot gives exactly what `BRA` gives on the same machine when
`T = 0` and exactly what `NOP` gives when `T ≠ 0`; a `BC` slot gives the `BRA`
result when bit 63 of `T` is set and the `NOP` result when it is clear. In every
case `T` and the parameter stack pointer are unchanged. -/
theorem C13_conditional_branches (v : VP64) (h1 : 1 ≤ v.state) (h10 : v.state ≤ 10) :
    (v.slotOpcode = some BZ →
      (v.t = 0 → v.Execute = VP64.dispatch { v with state := v.state + 1 } BRA) ∧
      (v.t ≠ 0 → v.Execute = VP64.dispatch { v with state := v.state + 1 } NOP) ∧
      ∃ u, v.Execute = some u ∧ u.t = v.t ∧ u.sp = v.sp) ∧
    (v.slotOpcode = some BC →
      (v.t.testBit 63 = true →
        v.Execute = VP64.dispatch { v with state := v.state + 1 } BRA) ∧
      (v.t.testBit 63 = false →
        v.Execute = VP64.dispatch { v with state := v.state + 1 } NOP) ∧
      ∃ u, v.Execute = some u ∧ u.t = v.t ∧ u.sp = v.sp) := by
  have hf : ¬ v.fetchDue := by unfold VP64.fetchDue; omega
  constructor
  · intro hop
    have h := VP64.Execute_of_slot v BZ hf hop
    rw [VP64.dispatch_BZ] at h
    dsimp only at h
    by_cases ht : v.t = 0
    · rw [if_pos ht] at h
      refine ⟨fun _ => h, fun h0 => absurd ht h0, ?_⟩
      rw [h, VP64.dispatch_BRA]
      exact ⟨_, rfl, rfl, rfl⟩
    · rw [if_neg ht] at h
      refine ⟨fun h0 => absurd h0 ht, fun _ => h, ?_⟩
      rw [h, VP64.dispatch_NOP]
      exact ⟨_, rfl, rfl, rfl⟩
  · intro hop
    have h := VP64.Execute_of_slot v BC hf hop
    rw [VP64.dispatch_BC] at h
    dsimp only at h
    by_cases ht : v.t.testBit 63 = true
    · rw [if_pos ((and_msb_ne_zero v.t).2 ht)] at h
      refine ⟨fun _ => h, fun h0 => absurd ht (by simp [h0]), ?_⟩
      rw [h, VP64.dispatch_BRA]
      exact ⟨_, rfl, rfl, rfl⟩
    · rw [if_neg (fun hc => ht ((and_msb_ne_zero v.t).1 hc))] at h
      refine ⟨fun h0 => absurd h0 ht, fun _ => h, ?_⟩
      rw [h, VP64.dispatch_NOP]
      exact ⟨_, rfl, rfl, rfl⟩

/-- Witness for C13: `BZ` in slot 1 of the zero machine. -/
theorem C13_conditional_branches_witness :
    ∃ u, ({ VP64.zero with ir := 0x0800000000000000, state := 1 } : VP64).Execute = some u ∧
      u.t = 0 ∧ u.sp = 0 :=
  ((C13_conditional_branches { VP64.zero with ir := 0x0800000000000000, state := 1 }
    (by decide) (by decide)).1 (by decide)).2.2

/-- C14. `OVER` on the code: after `LDI 5` and `LDI 7` on the zero machine the
next call dispatches `OVER` with `T = 7`, `sp = 2` and the entry just below the
top, `s[(sp - 1) mod 16]`, equal to 5; that call leaves `T = 0`, the content of
`s[sp]` before the call, and not 5; the stack pointer advances to 3 and 7 and 5
lie beneath the new top. -/
theorem C14_over_reads_entry_at_sp :
    (VP64.run 2
        { VP64.zero with
            memory := fun a => if a = 0 then 0x28A6C00000000000 else if a = 1 then 5 else 7 }).map
        (fun u => (u.dispatched, u.t, u.sp, u.s ((u.sp - 1) % 16).toNat, u.s u.sp.toNat))
      = some (some OVER, 7, 2, 5, 0) ∧
    (VP64.run 3
        { VP64.zero with
            memory := fun a => if a = 0 then 0x28A6C00000000000 else if a = 1 then 5 else 7 }).map
        (fun u => (u.t, u.sp, u.s 2, u.s 1))
      = some (0, 3, 7, 5) := by
  decide

/-- C15 fails as stated: the enumeration gives `DROP = 31`, not 30; a slot
holding 31 pops (`T` goes from 7 to 9 and `sp` from 0 to 15), and a slot holding
30 leaves `T = 7` and `sp = 0`. -/
theorem C15_drop_is_31_not_30 :
    DROP ≠ 30 ∧
    (VP64.Execute { VP64.zero with ir := 0x7C00000000000000, state := 1, t := 7,
                                   s := fun _ => 9 }).map (fun u => (u.t, u.sp))
      = some (9, 15) ∧
    (VP64.Execute { VP64.zero with ir := 0x7800000000000000, state := 1, t := 7,
                                   s := fun _ => 9 }).map (fun u => (u.t, u.sp))
      = some (7, 0) ∧
    VP64.dispatched { VP64.zero with ir := 0x7C00000000000000, state := 1, t := 7,
                                     s := fun _ => 9 } = some 31 ∧
    VP64.dispatched { VP64.zero with ir := 0x7800000000000000, state := 1, t := 7,
                                     s := fun _ => 9 } = some 30 := by
  decide

/-- C15, amended. Opcode numbering: the opcodes named by a `case` are the values
0..29 and 31, in enumeration order (`NOP = 0`, `BRA = 1`, ..., `XT = 29`,
`DROP = 31`); the value 30 is the reserved enumerator and no `case` names it. For
every machine, a call dispatching 30 changes neither `T` nor the parameter stack
pointer and gives what `NOP` gives, and a call dispatching 31 performs `DROP`:
`T = s[(sp - 1) mod 16]` and `sp = (sp - 1) mod 16`. -/
theorem C15_opcode_numbering :
    assignedOpcodes = [0, 1, 2, 3, 4, 5, 6, 7, 8, 9, 10, 11, 12, 13, 14, 15, 16, 17, 18, 19, 20,
      21, 22, 23, 24, 25, 26, 27, 28, 29, 31] ∧
    NOP = 0 ∧ BRA = 1 ∧ XT = 29 ∧ reserved_for_prefixed_opcodes = 30 ∧ DROP = 31 ∧
    reserved_for_prefixed_opcodes ∉ assignedOpcodes ∧
    (∀ v : VP64, v.dispatched = some 30 →
      ∃ u, v.Execute = some u ∧ u.t = v.t ∧ u.sp = v.sp ∧
        v.Execute = v.prefetch.bind
          (fun v1 => VP64.dispatch { v1 with state := v1.state + 1 } NOP)) ∧
    (∀ v : VP64, v.dispatched = some 31 →
      ∃ u, v.Execute = some u ∧ u.t = v.s ((v.sp - 1) % 16).toNat ∧
        u.sp = (v.sp - 1) % 16 ∧
        v.Execute = v.prefetch.bind
          (fun v1 => VP64.dispatch { v1 with state := v1.state + 1 } DROP)) := by
  refine ⟨rfl, rfl, rfl, rfl, rfl, rfl, by decide, fun v hop => ?_, fun v hop => ?_⟩
  · obtain ⟨v1, hv1, -, -, -, -⟩ := VP64.prefetch_safe v
    have hs : v1.slotOpcode = some 30 := by simpa [VP64.dispatched, hv1] using hop
    have he : v.Execute = some { v1 with state := v1.state + 1 } := by
      simp [VP64.Execute, hv1, hs, VP64.dispatch_unassigned _ 30 (by decide)]
    have hx : v1.t = v.t ∧ v1.sp = v.sp := by
      by_cases hf : v.fetchDue
      · have : v.prefetch = _ := (if_pos hf).trans (VP64.Fetch_eq v)
        rw [this] at hv1
        have e := (Option.some.inj hv1).symm
        subst e
        exact ⟨rfl, rfl⟩
      · have : v.prefetch = some v := if_neg hf
        rw [this] at hv1
        have e := (Option.some.inj hv1).symm
        subst e
        exact ⟨rfl, rfl⟩
    refine ⟨_, he, hx.1, hx.2, ?_⟩
    rw [he, hv1, Option.some_bind, VP64.dispatch_NOP]
  · obtain ⟨v1, hv1, -, -, -, -⟩ := VP64.prefetch_safe v
    have hs : v1.slotOpcode = some DROP := by simpa [VP64.dispatched, hv1] using hop
    have he : v.Execute = VP64.dispatch { v1 with state := v1.state + 1 } DROP := by
      simp [VP64.Execute, hv1, hs]
    have hx : v1.s = v.s ∧ v1.sp = v.sp := by
      by_cases hf : v.fetchDue
      · have : v.prefetch = _ := (if_pos hf).trans (VP64.Fetch_eq v)
        rw [this] at hv1
        have e := (Option.some.inj hv1).symm
        subst e
        exact ⟨rfl, rfl⟩
      · have : v.prefetch = some v := if_neg hf
        rw [this] at hv1
        have e := (Option.some.inj hv1).symm
        subst e
        exact ⟨rfl, rfl⟩
    refine ⟨_, he.trans (VP64.dispatch_DROP _), ?_, ?_, ?_⟩
    · show v1.s ((v1.sp - 1) % 16).toNat = _
      rw [hx.1, hx.2]
    · show (v1.sp - 1) % 16 = _
      rw [hx.2]
    · rw [he, hv1, Option.some_bind]

/-- C16. Unknown opcodes are no-ops: when the opcode a call of `Execute`
dispatches is none of the values named by a `case`, the call gives exactly what
it would give with `NOP` in that slot: the machine after the fetch (when one was
due) with its slot cursor advanced by one; `T`, `X`, `R`, both stacks and memory
are unchanged. Among the 6-bit values the ones named by no `case` are 30 and
32..63. -/
theorem C16_unknown_opcode_is_nop (v : VP64) (op : Nat) (hun : op ∉ assignedOpcodes)
    (hop : v.dispatched = some op) :
    v.Execute = v.prefetch.bind (fun v1 => VP64.dispatch { v1 with state := v1.state + 1 } NOP) ∧
    (∃ v1, v.prefetch = some v1 ∧ v.Execute = some { v1 with state := v1.state + 1 } ∧
      (¬ v.fetchDue → v1 = v)) ∧
    (∃ u, v.Execute = some u ∧ u.t = v.t ∧ u.x = v.x ∧ u.r = v.r ∧ u.sp = v.sp ∧
      u.rp = v.rp ∧ u.s = v.s ∧ u.rs = v.rs ∧ u.memory = v.memory) ∧
    (∀ k, k < 64 → (k ∉ assignedOpcodes ↔ k = 30 ∨ 32 ≤ k)) := by
  obtain ⟨v1, hv1, -, -, -, -⟩ := VP64.prefetch_safe v
  have hs : v1.slotOpcode = some op := by
    simpa [VP64.dispatched, hv1] using hop
  have he : v.Execute = some { v1 with state := v1.state + 1 } := by
    simp [VP64.Execute, hv1, hs, VP64.dispatch_unassigned _ op hun]
  refine ⟨?_, ⟨v1, hv1, he, fun hf => ?_⟩, ?_, ?_⟩
  · rw [he, hv1, Option.some_bind, VP64.dispatch_NOP]
  · have : v.prefetch = some v := if_neg hf
    rw [this] at hv1
    exact (Option.some.inj hv1).symm
  · by_cases hf : v.fetchDue
    · have : v.prefetch = _ := (if_pos hf).trans (VP64.Fetch_eq v)
      rw [this] at hv1
      have e := (Option.some.inj hv1).symm
      subst e
      exact ⟨_, he, rfl, rfl, rfl, rfl, rfl, rfl, rfl, rfl⟩
    · have : v.prefetch = some v := if_neg hf
      rw [this] at hv1
      have e := (Option.some.inj hv1).symm
      subst e
      exact ⟨_, he, rfl, rfl, rfl, rfl, rfl, rfl, rfl, rfl⟩
  · intro k hk
    interval_cases k <;> decide

/-- Witness for C16: the value 30 in slot 1. -/
theorem C16_unknown_opcode_is_nop_witness :
    ∃ u, ({ VP64.zero with ir := 0x7800000000000000, state := 1 } : VP64).Execute = some u ∧
      u.t = 0 ∧ u.x = 0 ∧ u.r = 0 ∧ u.sp = 0 ∧ u.rp = 0 ∧ u.s = (fun _ => 0) ∧
      u.rs = (fun _ => 0) ∧ u.memory = (fun _ => 0) :=
  (C16_unknown_opcode_is_nop { VP64.zero with ir := 0x7800000000000000, state := 1 } 30 (by decide)
    (by simp [VP64.dispatched, VP64.prefetch, VP64.fetchDue, VP64.slotOpcode, slotOf, shiftAt,
      shifts, VP64.zero]; decide)).2.2.1

/-- C17 fails as stated: with only bit 58 of the instruction register set, bits
4..61 hold `2^54` but the low 58 bits of `operand()` are 0; the operand is the
same as for the zero word, so it does not depend on bit 58. -/
theorem C17_operand_ignores_bit_58 :
    VP64.operand { VP64.zero with ir := 2 ^ 58 } % 2 ^ 58 ≠ ((2 ^ 58) >>> 4) % 2 ^ 58 ∧
    VP64.operand { VP64.zero with ir := 2 ^ 58 } = VP64.operand { VP64.zero with ir := 0 } := by
  decide

/-- C17, amended. Operand field position: `operand()` extracts the 54-bit field at
bits 4..57 of the instruction register: its low 54 bits equal bits 4..57, its
bits 54..63 all copy bit 57, it is the same for two registers that agree on
bits 4..57, it changes when any one of bits 4..57 is flipped, and it does not
change when a bit below 4 or above 57 is flipped. -/
theorem C17_operand_field_is_54_bits (v : VP64) :
    v.operand % 2 ^ 54 = (v.ir >>> 4) % 2 ^ 54 ∧
    v.operand / 2 ^ 54 = (if v.ir.testBit 57 then 1023 else 0) ∧
    (∀ u : VP64, (u.ir >>> 4) % 2 ^ 54 = (v.ir >>> 4) % 2 ^ 54 → u.operand = v.operand) ∧
    (∀ i, 4 ≤ i → i ≤ 57 → VP64.operand { v with ir := v.ir ^^^ 2 ^ i } ≠ v.operand) ∧
    (∀ i, i < 4 ∨ 58 ≤ i → VP64.operand { v with ir := v.ir ^^^ 2 ^ i } = v.operand) := by
  refine ⟨VP64.operand_mod v, VP64.operand_high v, fun u hu => ?_, fun i h4 h57 hc => ?_,
    fun i hi => ?_⟩
  · rw [VP64.operand_eq, VP64.operand_eq, hu]
  · have := congrArg (fun x => x % 2 ^ 54) hc
    simp only [VP64.operand_mod] at this
    exact field_flip v.ir i h4 h57 this
  · rw [VP64.operand_eq, VP64.operand_eq]
    have e : ((v.ir ^^^ 2 ^ i) >>> 4) % 2 ^ 54 = (v.ir >>> 4) % 2 ^ 54 := by
      apply Nat.eq_of_testBit_eq
      intro j
      simp only [Nat.testBit_mod_two_pow, Nat.testBit_shiftRight, Nat.testBit_xor,
        Nat.testBit_two_pow]
      by_cases hj : j < 54
      · have : i ≠ 4 + j := by omega
        simp [hj, this]
      · simp [hj]
    show (if ((v.ir ^^^ 2 ^ i) >>> 4) % 2 ^ 54 < 2 ^ 53 then _ else _) = _
    rw [e]

/-- C18. `CALL` followed by `RFS` resumes at the word after the call: from a
machine whose slot cursor is outside 1..10, with `0 ≤ rp < 16`, `pc = a`,
`a + 1 < MEMWORDS`, `CALL` in slot 1 of `memory[a]` with operand `d`, and `RFS` in
slot 1 of the word at `((a + 1 + d) mod 2^64) mod MEMWORDS`, two `Execute` calls
give the initial machine with `ip = a + 1`, `ir = memory[a + 1]`, `pc = a + 2`,
slot cursor 1 and the return-buffer entry at the initial `rp` set to the initial
`R`; `R`, `rp`, `T`, `X`, the parameter stack and memory are as at the start. -/
theorem C18_call_rfs_resumes (v : VP64) (a d : Nat) (hf : v.fetchDue)
    (hr0 : 0 ≤ v.rp) (hr1 : v.rp < 16)
    (hpc : v.pc = a) (ha : a + 1 < MEMWORDS)
    (hcall : slotOf (v.memory a) 1 = some CALL)
    (hd : VP64.operand { v with ir := v.memory a } = d)
    (hrfs : slotOf (v.memory ((a + 1 + d) % 2 ^ 64 % MEMWORDS)) 1 = some RFS) :
    VP64.run 2 v = some { v with ip := a + 1, ir := v.memory (a + 1), pc := a + 2, state := 1,
                                 rs := Function.update v.rs v.rp.toNat v.r } := by
  subst hpc
  have hmod : v.pc % MEMWORDS = v.pc := Nat.mod_eq_of_lt (by omega)
  have hmod1 : (v.pc + 1) % MEMWORDS = v.pc + 1 := Nat.mod_eq_of_lt ha
  have e1 : v.Execute = some
      { v with rs := Function.update v.rs v.rp.toNat v.r, rp := (v.rp + 1) % 16, r := v.pc + 1,
               ip := (v.pc + 1 + d) % W64,
               ir := v.memory ((v.pc + 1 + d) % W64 % MEMWORDS),
               pc := (v.pc + 1 + d) % W64 % MEMWORDS + 1, state := 1 } := by
    refine (VP64.Execute_of_fetch v CALL hf ?_).trans ?_
    · rw [hmod]; exact hcall
    · rw [VP64.dispatch_CALL]
      · simp only [hmod]
        have hd' : VP64.operand
            { v with ip := v.pc, ir := v.memory v.pc, pc := v.pc + 1, state := 2 } = d := hd
        rw [hd']
      · exact hr0
      · exact hr1
  have e2 : VP64.Execute
      { v with rs := Function.update v.rs v.rp.toNat v.r, rp := (v.rp + 1) % 16, r := v.pc + 1,
               ip := (v.pc + 1 + d) % W64,
               ir := v.memory ((v.pc + 1 + d) % W64 % MEMWORDS),
               pc := (v.pc + 1 + d) % W64 % MEMWORDS + 1, state := 1 } =
      some { v with ip := v.pc + 1, ir := v.memory (v.pc + 1), pc := v.pc + 2, state := 1,
                    rs := Function.update v.rs v.rp.toNat v.r } := by
    refine (VP64.Execute_of_slot _ RFS ?_ ?_).trans ?_
    · simp [VP64.fetchDue]
    · exact hrfs
    · refine (VP64.dispatch_RFS _).trans ?_
      have a2 : ((v.rp + 1) % 16 - 1) % 16 = v.rp := by omega
      dsimp only
      rw [a2, hmod1, Function.update_same]
  exact VP64.run_step ((VP64.run_one v).trans e1) e2

/-- Witness for C18: `CALL` with operand 0 at address 0 and `RFS` everywhere else. -/
theorem C18_call_rfs_resumes_witness :
    VP64.run 2
        { VP64.zero with
            memory := fun a => if a = 0 then 0x1000000000000000 else 0x1400000000000000 }
      = some { ({ VP64.zero with
                    memory := fun a =>
                      if a = 0 then 0x1000000000000000 else 0x1400000000000000 } : VP64) with
                 ip := 0 + 1,
                 ir := (fun a => if a = 0 then 0x1000000000000000 else 0x1400000000000000)
                         (0 + 1),
                 pc := 0 + 2, state := 1,
                 rs := Function.update (fun _ => 0) (0 : Int).toNat 0 } :=
  C18_call_rfs_resumes
    { VP64.zero with
        memory := fun a => if a = 0 then 0x1000000000000000 else 0x1400000000000000 }
    0 0 (Or.inl (by decide)) (by decide) (by decide) rfl (by decide) (by decide) (by decide)
    (by decide)

/-- C19. `PUSH` then `POP` is the identity on the visible machine: from slot
cursor `k` in 1..9 with `0 ≤ sp < 16`, `0 ≤ rp < 16`, `PUSH` in slot `k` and `POP`
in slot `k + 1`, two `Execute` calls give the initial machine with slot cursor
`k + 2` and the return-buffer entry at index `rp` set to `R`; `T`, `R`, `X`, `sp`,
`rp`, the parameter stack buffer, memory, `pc`, `ip` and `ir` are as at the
start. -/
theorem C19_push_pop_identity (v : VP64) (k : Nat) (hk1 : 1 ≤ k) (hk9 : k ≤ 9)
    (hst : v.state = (k : Int))
    (hs0 : 0 ≤ v.sp) (hs1 : v.sp < 16) (hr0 : 0 ≤ v.rp) (hr1 : v.rp < 16)
    (hpush : slotOf v.ir (k : Int) = some PUSH)
    (hpop : slotOf v.ir ((k : Int) + 1) = some POP) :
    VP64.run 2 v = some { v with state := (k : Int) + 2,
                                 rs := Function.update v.rs v.rp.toNat v.r } := by
  have e1 : v.Execute = some
      { v with state := v.state + 1, rs := Function.update v.rs v.rp.toNat v.r,
               rp := (v.rp + 1) % 16, r := v.t, sp := (v.sp - 1) % 16,
               t := v.s ((v.sp - 1) % 16).toNat } := by
    refine (VP64.Execute_of_slot v PUSH ?_ ?_).trans ?_
    · unfold VP64.fetchDue; omega
    · rw [VP64.slotOpcode, hst]; exact hpush
    · exact VP64.dispatch_PUSH _ hr0 hr1
  have e2 : VP64.Execute
      { v with state := v.state + 1, rs := Function.update v.rs v.rp.toNat v.r,
               rp := (v.rp + 1) % 16, r := v.t, sp := (v.sp - 1) % 16,
               t := v.s ((v.sp - 1) % 16).toNat } =
      some { v with state := (k : Int) + 2,
                    rs := Function.update v.rs v.rp.toNat v.r } := by
    refine (VP64.Execute_of_slot _ POP ?_ ?_).trans ?_
    · simp only [VP64.fetchDue]; omega
    · simp only [VP64.slotOpcode, hst]; exact hpop
    · refine (VP64.dispatch_POP _ ?_ ?_).trans ?_
      · dsimp only; omega
      · dsimp only; omega
      · have a1 : ((v.sp - 1) % 16 + 1) % 16 = v.sp := by omega
        have a2 : ((v.rp + 1) % 16 - 1) % 16 = v.rp := by omega
        have a3 : v.state + 1 + 1 = (k : Int) + 2 := by omega
        dsimp only
        rw [a1, a2, a3, Function.update_same, Function.update_eq_self]
  exact VP64.run_step ((VP64.run_one v).trans e1) e2

/-- Witness for C19: `PUSH` in slot 1 and `POP` in slot 2. -/
theorem C19_push_pop_identity_witness :
    VP64.run 2 { VP64.zero with ir := 0x7180000000000000, state := 1, t := 7 }
      = some { ({ VP64.zero with ir := 0x7180000000000000, state := 1, t := 7 } : VP64) with
                 state := ((1 : Nat) : Int) + 2,
                 rs := Function.update (fun _ => 0) (0 : Int).toNat 0 } :=
  C19_push_pop_identity { VP64.zero with ir := 0x7180000000000000, state := 1, t := 7 } 1
    (by decide) (by decide) rfl (by decide) (by decide) (by decide) (by decide) (by decide)
    (by decide)

/-- C20. A `TIMES` loop runs its word `R + 1` times: from a machine whose slot
cursor is outside 1..10, with `R = n`, `pc = a < MEMWORDS`, `SHL` in slot 1 and
`TIMES` in slot 2 of `memory[a]`, `2 (n + 1)` `Execute` calls give the initial
machine with slot cursor 3, `R = 0`, `ip = a`, `ir = memory[a]`, `pc = a + 1` and
`T = (T0 * 2^(n+1)) mod 2^64`; the opcodes dispatched by those calls are `SHL`,
`TIMES` repeated `n + 1` times, so `SHL` is dispatched `n + 1` times; after every
smaller positive number of calls the slot cursor is 1 or 2 and `ip = a`,
`pc = a + 1`, so slot cursor 3 is not reached earlier and only the word at `a` is
fetched. -/
theorem C20_times_loop (v : VP64) (a n : Nat) (_hn : n < 2 ^ 64) (hf : v.fetchDue)
    (hr : v.r = n) (hpc : v.pc = a) (ha : a < MEMWORDS)
    (h1 : slotOf (v.memory a) 1 = some SHL) (h2 : slotOf (v.memory a) 2 = some TIMES) :
    VP64.run (2 * (n + 1)) v
        = some { v with ip := a, ir := v.memory a, pc := a + 1, r := 0,
                        t := (v.t * 2 ^ (n + 1)) % 2 ^ 64, state := 3 } ∧
    VP64.dispatchTrace (2 * (n + 1)) v = some (shlTimesOps (n + 1)) ∧
    (shlTimesOps (n + 1)).count SHL = n + 1 ∧
    (∀ m, 1 ≤ m → m < 2 * (n + 1) →
      ∃ u, VP64.run m v = some u ∧ u.ip = a ∧ u.ir = v.memory a ∧ u.pc = a + 1 ∧
        (u.state = 1 ∨ u.state = 2)) := by
  obtain ⟨f1, f2, f3⟩ := VP64.shl_times_loop n v a ha (Or.inl ⟨hf, hpc⟩) hr h1 h2
  exact ⟨f1, f2, shlTimesOps_count (n + 1), f3⟩

/-- Witness for C20: the word `SHL TIMES` everywhere, `R = 2`, `T = 3`. -/
theorem C20_times_loop_witness :
    VP64.run (2 * (2 + 1))
        { VP64.zero with memory := fun _ => 0x4470000000000000, r := 2, t := 3 }
      = some { ({ VP64.zero with memory := fun _ => 0x4470000000000000, r := 2,
                                 t := 3 } : VP64) with
                 ip := 0, ir := (fun _ => 0x4470000000000000) 0, pc := 0 + 1, r := 0,
                 t := (3 * 2 ^ (2 + 1)) % 2 ^ 64, state := 3 } :=
  (C20_times_loop { VP64.zero with memory := fun _ => 0x4470000000000000, r := 2, t := 3 }
    0 2 (by decide) (Or.inl (by decide)) rfl rfl (by decide) (by decide) (by decide)).1
